import Mathlib

/-!
Verification development for the time-stepping and step-size-control layer of
`scikit_tt` (`solvers/ode.py`): the fixed-step TT integrators
(`explicit_euler`, `sod`, `implicit_euler`, `trapezoidal_rule`) and the
adaptive step-size controller (`adaptive_step_size`).

The compressed-tensor algebra (`scikit_tt.tensor_train`) and the (M)ALS
linear-system solvers (`scikit_tt.solvers.sle`) are external collaborators of
this layer; they are modelled as an abstract operation record `TTAlg`,
matching exactly the interface the stepping code consumes.  Scalars are exact
rationals; the special values (`inf`, `-inf`, `nan`) produced by numpy
divisions in the adaptive controller are modelled explicitly by `NpQ`.
`.copy()` calls return an independent equal value, which in this pure
embedding is the value itself.
-/

/-- A numpy float64 scalar as produced by the divisions of the adaptive
controller: a finite value (exact rational here), one of the two infinities
(produced by division by zero), or nan (produced by `0/0` and by `0*inf`).
Numpy emits a warning for these cases but never raises. -/
inductive NpQ where
  | fin (q : ℚ)
  | posInf
  | negInf
  | nan
deriving DecidableEq

/-- Numpy division of two finite scalars: `a/0` is `inf`/`-inf`/`nan`
according to the sign of `a`; otherwise exact division. -/
def npdiv (a b : ℚ) : NpQ :=
  if b = 0 then (if 0 < a then .posInf else if a < 0 then .negInf else .nan)
  else .fin (a / b)

/-- Numpy division of a finite scalar by a possibly non-finite one:
`a/±inf = 0`, `a/nan = nan`. -/
def npdivN (a : ℚ) : NpQ → NpQ
  | .fin b => npdiv a b
  | .posInf => .fin 0
  | .negInf => .fin 0
  | .nan => .nan

/-- Numpy `np.abs` (the absolute value written out by cases). -/
def npAbs : NpQ → NpQ
  | .fin q => .fin (if q < 0 then -q else q)
  | .posInf => .posInf
  | .negInf => .posInf
  | .nan => .nan

/-- Numpy multiplication of a finite scalar with a possibly non-finite one
(`0 * inf = nan`). -/
def npMulQ (c : ℚ) : NpQ → NpQ
  | .fin b => .fin (c * b)
  | .posInf => if 0 < c then .posInf else if c < 0 then .negInf else .nan
  | .negInf => if 0 < c then .negInf else if c < 0 then .posInf else .nan
  | .nan => .nan

/-- Numpy `np.amin` on two values (nan-propagating, as `np.amin` is). -/
def npMin : NpQ → NpQ → NpQ
  | .nan, _ => .nan
  | _, .nan => .nan
  | .negInf, _ => .negInf
  | _, .negInf => .negInf
  | .posInf, y => y
  | x, .posInf => x
  | .fin a, .fin b => .fin (min a b)

/-- The python comparison `x > q` on a numpy scalar `x` and a finite `q`
(`nan > q` is `False`). -/
def NpQ.gtQ : NpQ → ℚ → Bool
  | .fin a, q => decide (q < a)
  | .posInf, _ => true
  | .negInf, _ => false
  | .nan, _ => false

/-- A progress event handed to `utl.progress`: the label, the percent
complete, and the `show` flag (the caller's `progress` argument).  The wall
clock `cpu_time` argument is a pure diagnostic with no numerical content and
is not modelled. -/
structure Ev where
  label : String
  percent : ℚ
  visible : Bool
deriving DecidableEq

/-- Modelled from the spec: the external compressed-tensor algebra
(`scikit_tt.tensor_train`, not part of the stepping layer) together with the
two linear-system solvers (`scikit_tt.solvers.sle.als` / `.mals`), exactly as
consumed by `ode.py`:

* `eye` is `tt.eye(operator.row_dims)` for the fixed operator of one call;
* `add`/`sub`/`smul`/`dot` are tensor addition, subtraction, scalar
  multiplication and operator application;
* `ortho t threshold max_rank` is rank truncation (`TT.ortho`);
* `norm t p` is the p-norm (`TT.norm`; the stepping code uses `p = 1`,
  `p = 2`, and the library default `p = 2` for plain `.norm()`);
* `rank t` is the (maximal) TT rank of `t`;
* `als op guess rhs solver repeats` solves `op · x = rhs` with warm start
  `guess` (note: `sle.als` takes no `max_rank`/`threshold`);
* `mals op guess rhs solver threshold repeats max_rank` is the rank-adaptive
  solver. -/
structure TTAlg (T : Type) where
  eye : T
  add : T → T → T
  sub : T → T → T
  smul : ℚ → T → T
  dot : T → T → T
  ortho : T → ℚ → ℕ∞ → T
  norm : T → ℕ → ℚ
  rank : T → ℕ
  als : T → T → T → String → ℕ → T
  mals : T → T → T → String → ℚ → ℕ → ℕ∞ → T

/-- The implicit system matrix `tt.eye(operator.row_dims) - h * operator`. -/
def sysMat {T : Type} (alg : TTAlg T) (operator : T) (h : ℚ) : T :=
  alg.sub alg.eye (alg.smul h operator)

/-- The start event plus the per-step events `100*(i+1)/len(step_sizes)`
reported by the fixed-step integrators. -/
def progressEvents (label : String) (progress : Bool) (n : ℕ) : List Ev :=
  ⟨label, 0, progress⟩ ::
    (List.range n).map (fun i => ⟨label, 100 * ((i : ℚ) + 1) / (n : ℚ), progress⟩)

/-- The stepping loop of `explicit_euler` (ode.py lines 43-59): one appended
element per step size; each step applies `I + h·A`, truncates, and (when
`normalize > 0`) divides by the `normalize`-norm.  The appended `.copy()` is
the value itself. -/
def explicit_euler_steps {T : Type} (alg : TTAlg T) (operator : T)
    (threshold : ℚ) (max_rank : ℕ∞) (normalize : ℕ) : T → List ℚ → List T
  | _, [] => []
  | x, h :: hs =>
    let tmp := alg.dot (alg.add alg.eye (alg.smul h operator)) x
    let tmp := alg.ortho tmp threshold max_rank
    let tmp := if 0 < normalize then alg.smul (1 / alg.norm tmp normalize) tmp else tmp
    tmp :: explicit_euler_steps alg operator threshold max_rank normalize tmp hs

/-- `ode.explicit_euler`: returns the trajectory (initial value first) and the
reported progress events. -/
def explicit_euler {T : Type} (alg : TTAlg T) (operator initial_value : T)
    (step_sizes : List ℚ) (threshold : ℚ) (max_rank : ℕ∞) (normalize : ℕ)
    (progress : Bool) : List T × List Ev :=
  (initial_value ::
      explicit_euler_steps alg operator threshold max_rank normalize initial_value step_sizes,
    progressEvents "Running explicit Euler method" progress step_sizes.length)

/-- The stepping loop of `sod` (ode.py lines 128-150): `prev` and `cur` are
`solution[i-1]` and `solution[i]`; each step forms
`prev + 2·h·A·cur`, truncates and optionally normalizes. -/
def sod_steps {T : Type} (alg : TTAlg T) (operator : T) (threshold : ℚ)
    (max_rank : ℕ∞) (normalize : ℕ) : T → T → List ℚ → List T
  | _, _, [] => []
  | prev, cur, h :: hs =>
    let tmp := alg.add prev (alg.smul (2 * h) (alg.dot operator cur))
    let tmp := alg.ortho tmp threshold max_rank
    let tmp := if 0 < normalize then alg.smul (1 / alg.norm tmp normalize) tmp else tmp
    tmp :: sod_steps alg operator threshold max_rank normalize cur tmp hs

/-- `ode.sod` (second order differencing): for `i = 0` the backward
pseudo-state `(I - h₀·A)·x₀` plays the role of `solution[-1]`. -/
def sod {T : Type} (alg : TTAlg T) (operator initial_value : T)
    (step_sizes : List ℚ) (threshold : ℚ) (max_rank : ℕ∞) (normalize : ℕ)
    (progress : Bool) : List T × List Ev :=
  (initial_value ::
      (match step_sizes with
        | [] => []
        | h0 :: _ =>
          sod_steps alg operator threshold max_rank normalize
            (alg.dot (sysMat alg operator h0) initial_value) initial_value step_sizes),
    progressEvents "Running time-symmetrized explicit Euler method" progress step_sizes.length)

/-- The stepping loop of `implicit_euler` (ode.py lines 202-221): `tmp` is the
warm-start tensor `tt_tmp`, `x` is `solution[i]`.  The two `if` statements on
`tt_solver` mirror the source; for any other string the solve is skipped and
`tmp` is left unchanged.  No truncation is performed in the loop. -/
def implicit_euler_steps {T : Type} (alg : TTAlg T) (operator : T)
    (repeats : ℕ) (tt_solver : String) (threshold : ℚ) (max_rank : ℕ∞)
    (micro_solver : String) (normalize : ℕ) : T → T → List ℚ → List T
  | _, _, [] => []
  | tmp, x, h :: hs =>
    let tmp := if tt_solver = "als" then
        alg.als (sysMat alg operator h) tmp x micro_solver repeats else tmp
    let tmp := if tt_solver = "mals" then
        alg.mals (sysMat alg operator h) tmp x micro_solver threshold repeats max_rank else tmp
    let tmp := if 0 < normalize then alg.smul (1 / alg.norm tmp normalize) tmp else tmp
    tmp :: implicit_euler_steps alg operator repeats tt_solver threshold max_rank
      micro_solver normalize tmp tmp hs

/-- `ode.implicit_euler`. -/
def implicit_euler {T : Type} (alg : TTAlg T) (operator initial_value initial_guess : T)
    (step_sizes : List ℚ) (repeats : ℕ) (tt_solver : String) (threshold : ℚ)
    (max_rank : ℕ∞) (micro_solver : String) (normalize : ℕ) (progress : Bool) :
    List T × List Ev :=
  (initial_value ::
      implicit_euler_steps alg operator repeats tt_solver threshold max_rank
        micro_solver normalize initial_guess initial_value step_sizes,
    progressEvents "Running implicit Euler method" progress step_sizes.length)

/-- The stepping loop of `trapezoidal_rule` (ode.py lines 301-321): solves
`(I - 0.5h·A)·x = (I + 0.5h·A)·solution[i]` (the right-hand side is written
once here; the source spells the same expression in both solver branches) and
always normalizes in the 1-norm. -/
def trapezoidal_rule_steps {T : Type} (alg : TTAlg T) (operator : T)
    (repeats : ℕ) (tt_solver : String) (threshold : ℚ) (max_rank : ℕ∞)
    (micro_solver : String) : T → T → List ℚ → List T
  | _, _, [] => []
  | tmp, x, h :: hs =>
    let rhs := alg.dot (alg.add alg.eye (alg.smul (1/2 * h) operator)) x
    let tmp := if tt_solver = "als" then
        alg.als (sysMat alg operator (1/2 * h)) tmp rhs micro_solver repeats else tmp
    let tmp := if tt_solver = "mals" then
        alg.mals (sysMat alg operator (1/2 * h)) tmp rhs micro_solver threshold repeats max_rank
      else tmp
    let tmp := alg.smul (1 / alg.norm tmp 1) tmp
    tmp :: trapezoidal_rule_steps alg operator repeats tt_solver threshold max_rank
      micro_solver tmp tmp hs

/-- `ode.trapezoidal_rule`: note the function has no `normalize` parameter;
the 1-norm normalization is unconditional. -/
def trapezoidal_rule {T : Type} (alg : TTAlg T) (operator initial_value initial_guess : T)
    (step_sizes : List ℚ) (repeats : ℕ) (tt_solver : String) (threshold : ℚ)
    (max_rank : ℕ∞) (micro_solver : String) (progress : Bool) :
    List T × List Ev :=
  (initial_value ::
      trapezoidal_rule_steps alg operator repeats tt_solver threshold max_rank
        micro_solver initial_guess initial_value step_sizes,
    progressEvents "Running trapezoidal rule" progress step_sizes.length)

/-- The parameters of `adaptive_step_size` other than the operator and the two
input tensors (ode.py lines 356-359). -/
structure AdaptiveParams where
  time_end : ℚ
  step_size_first : ℚ
  repeats : ℕ
  solver : String
  error_tol : ℚ
  closeness_tol : ℚ
  step_size_min : ℚ
  step_size_max : ℚ
  closeness_min : ℚ
  factor_max : ℚ
  factor_safe : ℚ
  second_method : String
  progress : Bool
deriving DecidableEq

/-- The loop state of `adaptive_step_size`: the trajectory `solution`, the
time stamps `time_steps`, `closeness_pre`, the warm-start tensor `t_tmp`, the
loop-carried value of the python variable `t_2` (`none` models its initial
binding to the empty list `[]`, which has no `.norm`), the current `time`, the
current `step_size` (a numpy scalar), and the reported progress events. -/
structure AdaptiveState (T : Type) where
  solution : List T
  time_steps : List ℚ
  closeness_pre : ℚ
  t_tmp : T
  t2prev : Option T
  time : ℚ
  step_size : NpQ
  log : List Ev
deriving DecidableEq

/-- `solution[-1]`: the last trajectory element.  The trajectory starts as
`[initial_value]` and only grows, so the default is never used. -/
def adaptLast {T : Type} (s : AdaptiveState T) : T :=
  s.solution.getLastD s.t_tmp

/-- The primary candidate `t_1` of one controller iteration (ode.py lines
430-432): an implicit Euler solve with system matrix `I - h·A`, warm start
`t_tmp`, right-hand side `solution[-1]`, then 1-norm normalization. -/
def adaptT1 {T : Type} (alg : TTAlg T) (operator : T) (p : AdaptiveParams)
    (s : AdaptiveState T) (h : ℚ) : T :=
  let t := alg.als (sysMat alg operator h) s.t_tmp (adaptLast s) p.solver p.repeats
  alg.smul (1 / alg.norm t 1) t

/-- The secondary candidate `t_2` of one controller iteration before its
normalization (ode.py lines 435-445).  For `two_step_Euler` the source issues
two `sle.als` calls with the same system matrix `I - 0.5h·A`: the second call
receives the first call's result as its *initial guess* while its right-hand
side is again `solution[-1]`.  For `trapezoidal_rule` a single solve with
right-hand side `(I + 0.5h·A)·solution[-1]` is issued.  For any other string
the python variable `t_2` keeps its previous value (`s.t2prev`). -/
def adaptT2raw {T : Type} (alg : TTAlg T) (operator : T) (p : AdaptiveParams)
    (s : AdaptiveState T) (h : ℚ) : Option T :=
  let afterFirst : Option T :=
    if p.second_method = "two_step_Euler" then
      some (alg.als (sysMat alg operator (1/2 * h))
        (alg.als (sysMat alg operator (1/2 * h)) s.t_tmp (adaptLast s) p.solver p.repeats)
        (adaptLast s) p.solver p.repeats)
    else s.t2prev
  if p.second_method = "trapezoidal_rule" then
    some (alg.als (sysMat alg operator (1/2 * h)) s.t_tmp
      (alg.dot (alg.add alg.eye (alg.smul (1/2 * h) operator)) (adaptLast s))
      p.solver p.repeats)
  else afterFirst

/-- Modelled from the spec: the `two_step_Euler` secondary candidate as the
spec sentence describes it — "two successive half-step implicit solves, each
using the previous result as RHS for the next", i.e. the second solve's
right-hand side is the first solve's result. -/
def adaptT2chained {T : Type} (alg : TTAlg T) (operator : T) (p : AdaptiveParams)
    (s : AdaptiveState T) (h : ℚ) : T :=
  alg.als (sysMat alg operator (1/2 * h)) s.t_tmp
    (alg.als (sysMat alg operator (1/2 * h)) s.t_tmp (adaptLast s) p.solver p.repeats)
    p.solver p.repeats

/-- The 1-norm normalization applied to `t_2` (ode.py line 446). -/
def adaptT2 {T : Type} (alg : TTAlg T) (t2r : T) : T :=
  alg.smul (1 / alg.norm t2r 1) t2r

/-- `closeness = (operator.dot(t_1)).norm()` (ode.py line 449; `.norm()`
defaults to the Euclidean norm). -/
def adaptCloseness {T : Type} (alg : TTAlg T) (operator : T) (p : AdaptiveParams)
    (s : AdaptiveState T) (h : ℚ) : ℚ :=
  alg.norm (alg.dot operator (adaptT1 alg operator p s h)) 2

/-- `local_error = (t_1 - t_2).norm() / t_1.norm()` (ode.py line 452), a numpy
division. -/
def adaptLocalError {T : Type} (alg : TTAlg T) (operator : T) (p : AdaptiveParams)
    (s : AdaptiveState T) (h : ℚ) (t2r : T) : NpQ :=
  npdiv (alg.norm (alg.sub (adaptT1 alg operator p s h) (adaptT2 alg t2r)) 2)
    (alg.norm (adaptT1 alg operator p s h) 2)

/-- `closeness_difference = (closeness - closeness_pre) / closeness_pre`
(ode.py line 453), a numpy division. -/
def adaptClosenessDiff {T : Type} (alg : TTAlg T) (operator : T) (p : AdaptiveParams)
    (s : AdaptiveState T) (h : ℚ) : NpQ :=
  npdiv (adaptCloseness alg operator p s h - s.closeness_pre) s.closeness_pre

/-- `factor_local = error_tol / local_error` (ode.py line 456). -/
def adaptFactorLocal {T : Type} (alg : TTAlg T) (operator : T) (p : AdaptiveParams)
    (s : AdaptiveState T) (h : ℚ) (t2r : T) : NpQ :=
  npdivN p.error_tol (adaptLocalError alg operator p s h t2r)

/-- `factor_closeness = closeness_tol / np.abs(closeness_difference)`
(ode.py line 457). -/
def adaptFactorCloseness {T : Type} (alg : TTAlg T) (operator : T) (p : AdaptiveParams)
    (s : AdaptiveState T) (h : ℚ) : NpQ :=
  npdivN p.closeness_tol (npAbs (adaptClosenessDiff alg operator p s h))

/-- `step_size_new = np.amin([factor_max, factor_safe*factor_local,
factor_safe*factor_closeness]) * step_size` (ode.py line 460). -/
def adaptStepSizeNew {T : Type} (alg : TTAlg T) (operator : T) (p : AdaptiveParams)
    (s : AdaptiveState T) (h : ℚ) (t2r : T) : NpQ :=
  npMulQ h (npMin (.fin p.factor_max)
    (npMin (npMulQ p.factor_safe (adaptFactorLocal alg operator p s h t2r))
      (npMulQ p.factor_safe (adaptFactorCloseness alg operator p s h))))

/-- The accept condition `(factor_local > 1) and (factor_closeness > 1)`
(ode.py line 463). -/
def adaptAccept {T : Type} (alg : TTAlg T) (operator : T) (p : AdaptiveParams)
    (s : AdaptiveState T) (h : ℚ) (t2r : T) : Bool :=
  (adaptFactorLocal alg operator p s h t2r).gtQ 1 &&
    (adaptFactorCloseness alg operator p s h).gtQ 1

/-- One accept/reject transition of the controller (ode.py lines 462-473),
after the secondary candidate has been resolved to `t2r`.  On accept: advance
`time = min(time + step_size, time_end)`, clamp
`step_size = np.amin([step_size_new, time_end - time, step_size_max])` (with
the updated `time`), append `t_1` and `time`, warm-start from `t_1`, report
progress, and update `closeness_pre`.  On reject: only `step_size` (and the
python variable `t_2`) change. -/
def adaptStep {T : Type} (alg : TTAlg T) (operator : T) (p : AdaptiveParams)
    (s : AdaptiveState T) (h : ℚ) (t2r : T) : AdaptiveState T :=
  if adaptAccept alg operator p s h t2r then
    let time' := min (s.time + h) p.time_end
    let step' := npMin (adaptStepSizeNew alg operator p s h t2r)
      (npMin (.fin (p.time_end - time')) (.fin p.step_size_max))
    { solution := s.solution ++ [adaptT1 alg operator p s h],
      time_steps := s.time_steps ++ [time'],
      closeness_pre := adaptCloseness alg operator p s h,
      t_tmp := adaptT1 alg operator p s h,
      t2prev := some (adaptT2 alg t2r),
      time := time',
      step_size := step',
      log := s.log ++
        [⟨"Running adaptive step size method", 100 * time' / p.time_end, p.progress⟩] }
  else
    { s with t2prev := some (adaptT2 alg t2r),
             step_size := adaptStepSizeNew alg operator p s h t2r }

/-- One full iteration of the controller loop body (ode.py lines 429-473).
When `second_method` is not one of the two recognized strings and `t_2` still
holds its initial empty-list binding, the source raises an `AttributeError` at
`t_2.norm(p=1)`; this is the `.error ()` case.  The wildcard arm is
unreachable: a non-finite `step_size` either fails the loop guard (`nan`,
`-inf`) or never arises (`+inf`; `step_size` is always the result of an
`np.amin` against a finite value). -/
def adaptiveBody {T : Type} (alg : TTAlg T) (operator : T) (p : AdaptiveParams)
    (s : AdaptiveState T) : Except Unit (AdaptiveState T) :=
  match s.step_size with
  | .fin h =>
    match adaptT2raw alg operator p s h with
    | none => .error ()
    | some t2r => .ok (adaptStep alg operator p s h t2r)
  | _ => .ok s

/-- The loop guard `(time < time_end) and (closeness_pre > closeness_min) and
(step_size > step_size_min)` (ode.py line 427). -/
def adaptiveGuard (p : AdaptiveParams) {T : Type} (s : AdaptiveState T) : Bool :=
  decide (s.time < p.time_end) && decide (p.closeness_min < s.closeness_pre) &&
    s.step_size.gtQ p.step_size_min

/-- The controller's `while` loop, fuel-indexed (the source loop has no
iteration bound; every claim below is an invariant that holds for every fuel
value). -/
def adaptiveLoop {T : Type} (alg : TTAlg T) (operator : T) (p : AdaptiveParams) :
    ℕ → AdaptiveState T → Except Unit (AdaptiveState T)
  | 0, s => .ok s
  | n + 1, s =>
    if adaptiveGuard p s then (adaptiveBody alg operator p s).bind (adaptiveLoop alg operator p n)
    else .ok s

/-- The initial state of `adaptive_step_size` (ode.py lines 408-422):
`solution = [initial_value]`, `time_steps = [0]`,
`closeness_pre = (operator.dot(initial_value)).norm()`, warm start
`initial_guess`, `time = 0`, `step_size = step_size_first`, plus the start
progress event. -/
def initState {T : Type} (alg : TTAlg T) (operator : T) (p : AdaptiveParams)
    (initial_value initial_guess : T) : AdaptiveState T :=
  { solution := [initial_value],
    time_steps := [0],
    closeness_pre := alg.norm (alg.dot operator initial_value) 2,
    t_tmp := initial_guess,
    t2prev := none,
    time := 0,
    step_size := .fin p.step_size_first,
    log := [⟨"Running adaptive step size method", 0, p.progress⟩] }

/-- `ode.adaptive_step_size`: run the loop and return the trajectory, the time
stamps and the progress events (or the mid-loop failure). -/
def adaptive_step_size {T : Type} (alg : TTAlg T) (operator : T) (p : AdaptiveParams)
    (initial_value initial_guess : T) (fuel : ℕ) :
    Except Unit (List T × List ℚ × List Ev) :=
  (adaptiveLoop alg operator p fuel (initState alg operator p initial_value initial_guess)).map
    (fun s => (s.solution, s.time_steps, s.log))

/-- A concrete scalar instantiation of the tensor interface, used for explicit
counterexamples and witnesses: a tensor is a rational number, `als` returns
`rhs + guess` (so the dependence of a solve on its two tensor arguments is
observable), `norm` is the absolute value for every `p`, truncation is the
identity.  It satisfies the nonnegativity of norms. -/
def ratAlg : TTAlg ℚ where
  eye := 1
  add := fun a b => a + b
  sub := fun a b => a - b
  smul := fun c t => c * t
  dot := fun a b => a * b
  ortho := fun t _ _ => t
  norm := fun t _ => if t < 0 then -t else t
  rank := fun _ => 0
  als := fun _ guess rhs _ _ => rhs + guess
  mals := fun _ guess rhs _ _ _ _ => rhs

/-- A degenerate one-point instantiation whose norms are constantly `1`; it
satisfies every normalization hypothesis and is used as a witness model. -/
def unitAlg : TTAlg Unit where
  eye := ()
  add := fun _ _ => ()
  sub := fun _ _ => ()
  smul := fun _ _ => ()
  dot := fun _ _ => ()
  ortho := fun _ _ _ => ()
  norm := fun _ _ => 1
  rank := fun _ => 0
  als := fun _ _ _ _ _ => ()
  mals := fun _ _ _ _ _ _ _ => ()

/-- A rank-tracking instantiation: a tensor is identified with its TT rank.
`ortho` and `mals` respect the `max_rank` they are given (as the spec demands
of the truncating primitives), while `als` — which is handed no `max_rank` —
keeps the fixed structure of its warm-start guess, and scaling keeps the
rank. -/
def rankAlg : TTAlg ℕ where
  eye := 0
  add := fun a b => max a b
  sub := fun a b => max a b
  smul := fun _ t => t
  dot := fun a b => max a b
  ortho := fun t _ max_rank => if (t : ℕ∞) ≤ max_rank then t else 0
  norm := fun _ _ => 1
  rank := fun t => t
  als := fun _ guess _ _ _ => guess
  mals := fun _ guess _ _ _ _ max_rank => if (guess : ℕ∞) ≤ max_rank then guess else 0

/-- Controller parameters used by the concrete counterexample runs: note
`factor_safe = 2` (the parameter is not validated by the source) and a
tolerance configuration that makes the first iteration of the run below be
rejected through `factor_closeness`. -/
def cexParams : AdaptiveParams where
  time_end := 10
  step_size_first := 1
  repeats := 1
  solver := "solve"
  error_tol := 1
  closeness_tol := 2/5
  step_size_min := 0
  step_size_max := 10
  closeness_min := 0
  factor_max := 3
  factor_safe := 2
  second_method := "two_step_Euler"
  progress := false

/-- The values a numpy scalar built from nonnegative numerators/denominators
can take in the controller's factor pipeline: `nan`, `+inf`, or a nonnegative
finite value (never `-inf`). -/
def NpTame (x : NpQ) : Prop :=
  x = .nan ∨ x = .posInf ∨ ∃ q, x = .fin q ∧ 0 ≤ q

/-- The controller invariant used below: the current time never exceeds
`time_end`, and the step size, when finite, is nonnegative. -/
def adaptInv {T : Type} (p : AdaptiveParams) (s : AdaptiveState T) : Prop :=
  s.time ≤ p.time_end ∧ ∀ q, s.step_size = .fin q → 0 ≤ q

/-- A state with its event log removed (used to state that progress reporting
does not influence the numerical loop state). -/
def stripLog {T : Type} (s : AdaptiveState T) : AdaptiveState T :=
  { s with log := [] }

theorem adaptiveBody_eq_ok {T : Type} (alg : TTAlg T) (operator : T) (p : AdaptiveParams)
    (s : AdaptiveState T) {h : ℚ} {t2r : T}
    (hss : s.step_size = .fin h) (ht2 : adaptT2raw alg operator p s h = some t2r) :
    adaptiveBody alg operator p s = .ok (adaptStep alg operator p s h t2r) := by
  unfold adaptiveBody
  rw [hss]
  simp only [ht2]

theorem adaptiveBody_eq_error {T : Type} (alg : TTAlg T) (operator : T) (p : AdaptiveParams)
    (s : AdaptiveState T) {h : ℚ}
    (hss : s.step_size = .fin h) (ht2 : adaptT2raw alg operator p s h = none) :
    adaptiveBody alg operator p s = .error () := by
  unfold adaptiveBody
  rw [hss]
  simp only [ht2]

theorem adaptStep_accept_eq {T : Type} (alg : TTAlg T) (operator : T) (p : AdaptiveParams)
    (s : AdaptiveState T) (h : ℚ) (t2r : T)
    (hacc : adaptAccept alg operator p s h t2r = true) :
    adaptStep alg operator p s h t2r =
      { solution := s.solution ++ [adaptT1 alg operator p s h],
        time_steps := s.time_steps ++ [min (s.time + h) p.time_end],
        closeness_pre := adaptCloseness alg operator p s h,
        t_tmp := adaptT1 alg operator p s h,
        t2prev := some (adaptT2 alg t2r),
        time := min (s.time + h) p.time_end,
        step_size := npMin (adaptStepSizeNew alg operator p s h t2r)
          (npMin (.fin (p.time_end - min (s.time + h) p.time_end)) (.fin p.step_size_max)),
        log := s.log ++ [⟨"Running adaptive step size method",
          100 * min (s.time + h) p.time_end / p.time_end, p.progress⟩] } := by
  unfold adaptStep
  rw [if_pos hacc]

theorem adaptStep_reject_eq {T : Type} (alg : TTAlg T) (operator : T) (p : AdaptiveParams)
    (s : AdaptiveState T) (h : ℚ) (t2r : T)
    (hacc : adaptAccept alg operator p s h t2r = false) :
    adaptStep alg operator p s h t2r =
      { s with t2prev := some (adaptT2 alg t2r),
               step_size := adaptStepSizeNew alg operator p s h t2r } := by
  unfold adaptStep
  rw [if_neg (by simp [hacc])]

theorem npdiv_tame {a b : ℚ} (ha : 0 ≤ a) (hb : 0 ≤ b) : NpTame (npdiv a b) := by
  unfold npdiv
  by_cases hb0 : b = 0
  · rw [if_pos hb0]
    by_cases ha0 : 0 < a
    · rw [if_pos ha0]
      exact Or.inr (Or.inl rfl)
    · rw [if_neg ha0, if_neg (not_lt.2 ha)]
      exact Or.inl rfl
  · rw [if_neg hb0]
    exact Or.inr (Or.inr ⟨a / b, rfl, div_nonneg ha hb⟩)

theorem npAbs_tame (x : NpQ) : NpTame (npAbs x) := by
  cases x with
  | fin q =>
    refine Or.inr (Or.inr ⟨if q < 0 then -q else q, rfl, ?_⟩)
    split <;> linarith
  | posInf => exact Or.inr (Or.inl rfl)
  | negInf => exact Or.inr (Or.inl rfl)
  | nan => exact Or.inl rfl

theorem npdivN_tame {a : ℚ} (ha : 0 < a) {x : NpQ} (hx : NpTame x) :
    NpTame (npdivN a x) := by
  rcases hx with rfl | rfl | ⟨q, rfl, hq⟩
  · exact Or.inl rfl
  · exact Or.inr (Or.inr ⟨0, rfl, le_refl 0⟩)
  · exact npdiv_tame ha.le hq

theorem npMulQ_tame {c : ℚ} (hc : 0 ≤ c) {x : NpQ} (hx : NpTame x) :
    NpTame (npMulQ c x) := by
  rcases hx with rfl | rfl | ⟨q, rfl, hq⟩
  · exact Or.inl rfl
  · rcases hc.lt_or_eq with hpos | hzero
    · simp only [npMulQ, if_pos hpos]
      exact Or.inr (Or.inl rfl)
    · simp only [npMulQ, ← hzero, lt_irrefl, if_false]
      exact Or.inl rfl
  · exact Or.inr (Or.inr ⟨c * q, rfl, mul_nonneg hc hq⟩)

theorem npMin_tame {x y : NpQ} (hx : NpTame x) (hy : NpTame y) :
    NpTame (npMin x y) := by
  rcases hx with rfl | rfl | ⟨a, rfl, ha⟩ <;> rcases hy with rfl | rfl | ⟨b, rfl, hb⟩ <;>
    first
      | exact Or.inl rfl
      | exact Or.inr (Or.inl rfl)
      | exact Or.inr (Or.inr ⟨_, rfl, le_min ha hb⟩)
      | exact Or.inr (Or.inr ⟨_, rfl, ha⟩)
      | exact Or.inr (Or.inr ⟨_, rfl, hb⟩)

theorem npMin_fin_ne_posInf (a : ℚ) (y : NpQ) : npMin (.fin a) y ≠ .posInf := by
  cases y <;> simp [npMin]

theorem npMulQ_cases {h : ℚ} (hh : 0 ≤ h) {x : NpQ} (hx : NpTame x)
    (hnp : x ≠ .posInf) :
    npMulQ h x = .nan ∨ ∃ m, npMulQ h x = .fin m ∧ 0 ≤ m := by
  rcases hx with rfl | rfl | ⟨q, rfl, hq⟩
  · exact Or.inl rfl
  · exact absurd rfl hnp
  · exact Or.inr ⟨h * q, rfl, mul_nonneg hh hq⟩

theorem factorLocal_tame {T : Type} (alg : TTAlg T) (operator : T) (p : AdaptiveParams)
    (s : AdaptiveState T) (h : ℚ) (t2r : T)
    (Hnorm : ∀ t k, 0 ≤ alg.norm t k) (het : 0 < p.error_tol) :
    NpTame (adaptFactorLocal alg operator p s h t2r) :=
  npdivN_tame het (npdiv_tame (Hnorm _ _) (Hnorm _ _))

theorem factorCloseness_tame {T : Type} (alg : TTAlg T) (operator : T) (p : AdaptiveParams)
    (s : AdaptiveState T) (h : ℚ) (hct : 0 < p.closeness_tol) :
    NpTame (adaptFactorCloseness alg operator p s h) :=
  npdivN_tame hct (npAbs_tame _)

theorem stepSizeNew_cases {T : Type} (alg : TTAlg T) (operator : T) (p : AdaptiveParams)
    (s : AdaptiveState T) (h : ℚ) (t2r : T)
    (Hnorm : ∀ t k, 0 ≤ alg.norm t k) (het : 0 < p.error_tol) (hct : 0 < p.closeness_tol)
    (hfs : 0 ≤ p.factor_safe) (hfm : 0 ≤ p.factor_max) (hh : 0 ≤ h) :
    adaptStepSizeNew alg operator p s h t2r = .nan ∨
      ∃ m, adaptStepSizeNew alg operator p s h t2r = .fin m ∧ 0 ≤ m := by
  unfold adaptStepSizeNew
  refine npMulQ_cases hh ?_ (npMin_fin_ne_posInf _ _)
  exact npMin_tame (Or.inr (Or.inr ⟨_, rfl, hfm⟩))
    (npMin_tame (npMulQ_tame hfs (factorLocal_tame alg operator p s h t2r Hnorm het))
      (npMulQ_tame hfs (factorCloseness_tame alg operator p s h hct)))

theorem accept_stepSizeNew_fin {T : Type} (alg : TTAlg T) (operator : T) (p : AdaptiveParams)
    (s : AdaptiveState T) (h : ℚ) (t2r : T)
    (hfs : 0 < p.factor_safe)
    (hacc : adaptAccept alg operator p s h t2r = true) :
    ∃ m, adaptStepSizeNew alg operator p s h t2r = .fin m := by
  have h1 : (adaptFactorLocal alg operator p s h t2r).gtQ 1 = true ∧
      (adaptFactorCloseness alg operator p s h).gtQ 1 = true := by
    unfold adaptAccept at hacc
    rw [Bool.and_eq_true] at hacc
    exact hacc
  have hchar : ∀ x : NpQ, x.gtQ 1 = true → x = .posInf ∨ ∃ a, x = .fin a := by
    intro x hx
    cases x with
    | fin a => exact Or.inr ⟨a, rfl⟩
    | posInf => exact Or.inl rfl
    | negInf => exact absurd hx (by simp [NpQ.gtQ])
    | nan => exact absurd hx (by simp [NpQ.gtQ])
  rcases hchar _ h1.1 with hA | ⟨a, hA⟩ <;> rcases hchar _ h1.2 with hB | ⟨b, hB⟩
  · exact ⟨h * p.factor_max,
      by unfold adaptStepSizeNew; rw [hA, hB]; simp [npMulQ, npMin, if_pos hfs]⟩
  · exact ⟨h * min p.factor_max (p.factor_safe * b),
      by unfold adaptStepSizeNew; rw [hA, hB]; simp [npMulQ, npMin, if_pos hfs]⟩
  · exact ⟨h * min p.factor_max (p.factor_safe * a),
      by unfold adaptStepSizeNew; rw [hA, hB]; simp [npMulQ, npMin, if_pos hfs]⟩
  · exact ⟨h * min p.factor_max (min (p.factor_safe * a) (p.factor_safe * b)),
      by unfold adaptStepSizeNew; rw [hA, hB]; simp [npMulQ, npMin, if_pos hfs]⟩

theorem reject_stepSizeNew_lt {T : Type} (alg : TTAlg T) (operator : T) (p : AdaptiveParams)
    (s : AdaptiveState T) (h : ℚ) (t2r : T)
    (Hnorm : ∀ t k, 0 ≤ alg.norm t k) (het : 0 < p.error_tol) (hct : 0 < p.closeness_tol)
    (hfs0 : 0 < p.factor_safe) (hfs1 : p.factor_safe < 1) (hfm : 0 ≤ p.factor_max)
    (hh : 0 < h)
    (hrej : adaptAccept alg operator p s h t2r = false)
    (hfl : adaptFactorLocal alg operator p s h t2r ≠ .nan)
    (hfc : adaptFactorCloseness alg operator p s h ≠ .nan) :
    ∃ h', adaptStepSizeNew alg operator p s h t2r = .fin h' ∧ h' < h := by
  have TL := factorLocal_tame alg operator p s h t2r Hnorm het
  have TC := factorCloseness_tame alg operator p s h hct
  have hre : (adaptFactorLocal alg operator p s h t2r).gtQ 1 = false ∨
      (adaptFactorCloseness alg operator p s h).gtQ 1 = false := by
    unfold adaptAccept at hrej
    rcases hgl : (adaptFactorLocal alg operator p s h t2r).gtQ 1 with _ | _
    · exact Or.inl rfl
    · rcases hgc : (adaptFactorCloseness alg operator p s h).gtQ 1 with _ | _
      · exact Or.inr rfl
      · rw [hgl, hgc] at hrej
        simp at hrej
  rcases hre with hre | hre
  · rcases TL with h1 | h1 | ⟨q, hq, hq0⟩
    · exact absurd h1 hfl
    · rw [h1] at hre
      simp [NpQ.gtQ] at hre
    · have hq1 : q ≤ 1 := by
        rw [hq] at hre
        simp [NpQ.gtQ] at hre
        exact hre
      have hsq : p.factor_safe * q ≤ p.factor_safe :=
        mul_le_of_le_one_right hfs0.le hq1
      rcases TC with h2 | h2 | ⟨r, hr, hr0⟩
      · exact absurd h2 hfc
      · refine ⟨h * min p.factor_max (p.factor_safe * q), ?_, ?_⟩
        · unfold adaptStepSizeNew
          rw [hq, h2]
          simp [npMulQ, npMin, if_pos hfs0]
        · have hlt : min p.factor_max (p.factor_safe * q) < 1 :=
            lt_of_le_of_lt (min_le_right _ _) (lt_of_le_of_lt hsq hfs1)
          calc h * min p.factor_max (p.factor_safe * q) < h * 1 :=
                mul_lt_mul_of_pos_left hlt hh
            _ = h := mul_one h
      · refine ⟨h * min p.factor_max (min (p.factor_safe * q) (p.factor_safe * r)), ?_, ?_⟩
        · unfold adaptStepSizeNew
          rw [hq, hr]
          simp [npMulQ, npMin]
        · have hlt : min p.factor_max (min (p.factor_safe * q) (p.factor_safe * r)) < 1 :=
            lt_of_le_of_lt (le_trans (min_le_right _ _) (min_le_left _ _))
              (lt_of_le_of_lt hsq hfs1)
          calc h * min p.factor_max (min (p.factor_safe * q) (p.factor_safe * r)) < h * 1 :=
                mul_lt_mul_of_pos_left hlt hh
            _ = h := mul_one h
  · rcases TC with h2 | h2 | ⟨r, hr, hr0⟩
    · exact absurd h2 hfc
    · rw [h2] at hre
      simp [NpQ.gtQ] at hre
    · have hr1 : r ≤ 1 := by
        rw [hr] at hre
        simp [NpQ.gtQ] at hre
        exact hre
      have hsr : p.factor_safe * r ≤ p.factor_safe :=
        mul_le_of_le_one_right hfs0.le hr1
      rcases TL with h1 | h1 | ⟨q, hq, hq0⟩
      · exact absurd h1 hfl
      · refine ⟨h * min p.factor_max (p.factor_safe * r), ?_, ?_⟩
        · unfold adaptStepSizeNew
          rw [h1, hr]
          simp [npMulQ, npMin, if_pos hfs0]
        · have hlt : min p.factor_max (p.factor_safe * r) < 1 :=
            lt_of_le_of_lt (min_le_right _ _) (lt_of_le_of_lt hsr hfs1)
          calc h * min p.factor_max (p.factor_safe * r) < h * 1 :=
                mul_lt_mul_of_pos_left hlt hh
            _ = h := mul_one h
      · refine ⟨h * min p.factor_max (min (p.factor_safe * q) (p.factor_safe * r)), ?_, ?_⟩
        · unfold adaptStepSizeNew
          rw [hq, hr]
          simp [npMulQ, npMin]
        · have hlt : min p.factor_max (min (p.factor_safe * q) (p.factor_safe * r)) < 1 :=
            lt_of_le_of_lt (le_trans (min_le_right _ _) (min_le_right _ _))
              (lt_of_le_of_lt hsr hfs1)
          calc h * min p.factor_max (min (p.factor_safe * q) (p.factor_safe * r)) < h * 1 :=
                mul_lt_mul_of_pos_left hlt hh
            _ = h := mul_one h

theorem adaptiveBody_eq_id {T : Type} (alg : TTAlg T) (operator : T) (p : AdaptiveParams)
    (s : AdaptiveState T)
    (hss : s.step_size = .posInf ∨ s.step_size = .negInf ∨ s.step_size = .nan) :
    adaptiveBody alg operator p s = .ok s := by
  unfold adaptiveBody
  rcases hss with h | h | h <;> rw [h]

theorem adaptiveBody_inv {T : Type} {alg : TTAlg T} {operator : T} {p : AdaptiveParams}
    (Hnorm : ∀ t k, 0 ≤ alg.norm t k) (het : 0 < p.error_tol) (hct : 0 < p.closeness_tol)
    (hfs : 0 < p.factor_safe) (hfm : 0 ≤ p.factor_max) (hsm : 0 ≤ p.step_size_max)
    {s s' : AdaptiveState T} (hinv : adaptInv p s)
    (hbody : adaptiveBody alg operator p s = .ok s') :
    adaptInv p s' ∧ s.time ≤ s'.time := by
  cases hss : s.step_size with
  | fin h =>
    cases ht2 : adaptT2raw alg operator p s h with
    | none =>
      rw [adaptiveBody_eq_error alg operator p s hss ht2] at hbody
      simp at hbody
    | some t2r =>
      rw [adaptiveBody_eq_ok alg operator p s hss ht2] at hbody
      have hstep : adaptStep alg operator p s h t2r = s' := by
        injection hbody
      subst hstep
      have hh : 0 ≤ h := hinv.2 h hss
      cases hacc : adaptAccept alg operator p s h t2r with
      | false =>
        rw [adaptStep_reject_eq alg operator p s h t2r hacc]
        unfold adaptInv
        dsimp only
        refine ⟨⟨hinv.1, ?_⟩, le_refl _⟩
        intro q hq
        rcases stepSizeNew_cases alg operator p s h t2r Hnorm het hct hfs.le hfm hh with
          hnan | ⟨m, hm, hm0⟩
        · rw [hnan] at hq
          simp at hq
        · rw [hm] at hq
          injection hq with he
          rw [← he]
          exact hm0
      | true =>
        rw [adaptStep_accept_eq alg operator p s h t2r hacc]
        unfold adaptInv
        dsimp only
        refine ⟨⟨min_le_right _ _, ?_⟩, le_min (le_add_of_nonneg_right hh) hinv.1⟩
        intro q hq
        rcases stepSizeNew_cases alg operator p s h t2r Hnorm het hct hfs.le hfm hh with
          hnan | ⟨m, hm, hm0⟩
        · rw [hnan] at hq
          simp [npMin] at hq
        · rw [hm] at hq
          simp [npMin] at hq
          rw [← hq]
          exact le_min hm0 (le_min (sub_nonneg.mpr (min_le_right _ _)) hsm)
  | posInf =>
    rw [adaptiveBody_eq_id alg operator p s (Or.inl hss)] at hbody
    injection hbody with hb
    subst hb
    exact ⟨hinv, le_refl _⟩
  | negInf =>
    rw [adaptiveBody_eq_id alg operator p s (Or.inr (Or.inl hss))] at hbody
    injection hbody with hb
    subst hb
    exact ⟨hinv, le_refl _⟩
  | nan =>
    rw [adaptiveBody_eq_id alg operator p s (Or.inr (Or.inr hss))] at hbody
    injection hbody with hb
    subst hb
    exact ⟨hinv, le_refl _⟩

theorem adaptiveLoop_inv {T : Type} {alg : TTAlg T} {operator : T} {p : AdaptiveParams}
    (Hnorm : ∀ t k, 0 ≤ alg.norm t k) (het : 0 < p.error_tol) (hct : 0 < p.closeness_tol)
    (hfs : 0 < p.factor_safe) (hfm : 0 ≤ p.factor_max) (hsm : 0 ≤ p.step_size_max) :
    ∀ (fuel : ℕ) (s s' : AdaptiveState T), adaptInv p s →
      adaptiveLoop alg operator p fuel s = .ok s' →
      adaptInv p s' ∧ s.time ≤ s'.time := by
  intro fuel
  induction fuel with
  | zero =>
    intro s s' hinv hl
    unfold adaptiveLoop at hl
    injection hl with hb
    subst hb
    exact ⟨hinv, le_refl _⟩
  | succ n ih =>
    intro s s' hinv hl
    unfold adaptiveLoop at hl
    by_cases hg : adaptiveGuard p s = true
    · rw [if_pos hg] at hl
      cases hb : adaptiveBody alg operator p s with
      | error e =>
        rw [hb] at hl
        simp [Except.bind] at hl
      | ok s₁ =>
        rw [hb] at hl
        simp only [Except.bind] at hl
        obtain ⟨hinv₁, ht₁⟩ := adaptiveBody_inv Hnorm het hct hfs hfm hsm hinv hb
        obtain ⟨hinv', ht'⟩ := ih s₁ s' hinv₁ hl
        exact ⟨hinv', le_trans ht₁ ht'⟩
    · rw [if_neg hg] at hl
      injection hl with hb
      subst hb
      exact ⟨hinv, le_refl _⟩

theorem explicit_euler_steps_length {T : Type} (alg : TTAlg T) (operator : T)
    (threshold : ℚ) (max_rank : ℕ∞) (normalize : ℕ) :
    ∀ (x : T) (hs : List ℚ),
      (explicit_euler_steps alg operator threshold max_rank normalize x hs).length = hs.length := by
  intro x hs
  induction hs generalizing x with
  | nil => rfl
  | cons h t ih => simp [explicit_euler_steps, ih]

theorem sod_steps_length {T : Type} (alg : TTAlg T) (operator : T)
    (threshold : ℚ) (max_rank : ℕ∞) (normalize : ℕ) :
    ∀ (prev cur : T) (hs : List ℚ),
      (sod_steps alg operator threshold max_rank normalize prev cur hs).length = hs.length := by
  intro prev cur hs
  induction hs generalizing prev cur with
  | nil => rfl
  | cons h t ih => simp [sod_steps, ih]

theorem implicit_euler_steps_length {T : Type} (alg : TTAlg T) (operator : T)
    (repeats : ℕ) (tt_solver : String) (threshold : ℚ) (max_rank : ℕ∞)
    (micro_solver : String) (normalize : ℕ) :
    ∀ (tmp x : T) (hs : List ℚ),
      (implicit_euler_steps alg operator repeats tt_solver threshold max_rank
        micro_solver normalize tmp x hs).length = hs.length := by
  intro tmp x hs
  induction hs generalizing tmp x with
  | nil => rfl
  | cons h t ih => simp [implicit_euler_steps, ih]

theorem trapezoidal_rule_steps_length {T : Type} (alg : TTAlg T) (operator : T)
    (repeats : ℕ) (tt_solver : String) (threshold : ℚ) (max_rank : ℕ∞)
    (micro_solver : String) :
    ∀ (tmp x : T) (hs : List ℚ),
      (trapezoidal_rule_steps alg operator repeats tt_solver threshold max_rank
        micro_solver tmp x hs).length = hs.length := by
  intro tmp x hs
  induction hs generalizing tmp x with
  | nil => rfl
  | cons h t ih => simp [trapezoidal_rule_steps, ih]

theorem explicit_euler_steps_norm_one {T : Type} (alg : TTAlg T) (operator : T)
    (threshold : ℚ) (max_rank : ℕ∞) (normalize : ℕ) (hnz : 0 < normalize)
    (Hn : ∀ t : T, alg.norm (alg.smul (1 / alg.norm t normalize) t) normalize = 1) :
    ∀ (x : T) (hs : List ℚ) (y : T),
      y ∈ explicit_euler_steps alg operator threshold max_rank normalize x hs →
      alg.norm y normalize = 1 := by
  intro x hs
  induction hs generalizing x with
  | nil => intro y hy; simp [explicit_euler_steps] at hy
  | cons h t ih =>
    intro y hy
    simp only [explicit_euler_steps, if_pos hnz] at hy
    cases hy with
    | head => exact Hn _
    | tail _ hy' => exact ih _ y hy'

theorem sod_steps_norm_one {T : Type} (alg : TTAlg T) (operator : T)
    (threshold : ℚ) (max_rank : ℕ∞) (normalize : ℕ) (hnz : 0 < normalize)
    (Hn : ∀ t : T, alg.norm (alg.smul (1 / alg.norm t normalize) t) normalize = 1) :
    ∀ (prev cur : T) (hs : List ℚ) (y : T),
      y ∈ sod_steps alg operator threshold max_rank normalize prev cur hs →
      alg.norm y normalize = 1 := by
  intro prev cur hs
  induction hs generalizing prev cur with
  | nil => intro y hy; simp [sod_steps] at hy
  | cons h t ih =>
    intro y hy
    simp only [sod_steps, if_pos hnz] at hy
    cases hy with
    | head => exact Hn _
    | tail _ hy' => exact ih _ _ y hy'

theorem implicit_euler_steps_norm_one {T : Type} (alg : TTAlg T) (operator : T)
    (repeats : ℕ) (tt_solver : String) (threshold : ℚ) (max_rank : ℕ∞)
    (micro_solver : String) (normalize : ℕ) (hnz : 0 < normalize)
    (Hn : ∀ t : T, alg.norm (alg.smul (1 / alg.norm t normalize) t) normalize = 1) :
    ∀ (tmp x : T) (hs : List ℚ) (y : T),
      y ∈ implicit_euler_steps alg operator repeats tt_solver threshold max_rank
        micro_solver normalize tmp x hs →
      alg.norm y normalize = 1 := by
  intro tmp x hs
  induction hs generalizing tmp x with
  | nil => intro y hy; simp [implicit_euler_steps] at hy
  | cons h t ih =>
    intro y hy
    simp only [implicit_euler_steps, if_pos hnz] at hy
    cases hy with
    | head => exact Hn _
    | tail _ hy' => exact ih _ _ y hy'

theorem trapezoidal_rule_steps_norm_one {T : Type} (alg : TTAlg T) (operator : T)
    (repeats : ℕ) (tt_solver : String) (threshold : ℚ) (max_rank : ℕ∞)
    (micro_solver : String)
    (Hn : ∀ t : T, alg.norm (alg.smul (1 / alg.norm t 1) t) 1 = 1) :
    ∀ (tmp x : T) (hs : List ℚ) (y : T),
      y ∈ trapezoidal_rule_steps alg operator repeats tt_solver threshold max_rank
        micro_solver tmp x hs →
      alg.norm y 1 = 1 := by
  intro tmp x hs
  induction hs generalizing tmp x with
  | nil => intro y hy; simp [trapezoidal_rule_steps] at hy
  | cons h t ih =>
    intro y hy
    simp only [trapezoidal_rule_steps] at hy
    cases hy with
    | head => exact Hn _
    | tail _ hy' => exact ih _ _ y hy'

theorem explicit_euler_steps_rank {T : Type} (alg : TTAlg T) (operator : T)
    (threshold : ℚ) (max_rank : ℕ∞) (normalize : ℕ)
    (Hortho : ∀ (t : T) (th : ℚ) (R : ℕ∞), (alg.rank (alg.ortho t th R) : ℕ∞) ≤ R)
    (Hsmul : ∀ (c : ℚ) (t : T), alg.rank (alg.smul c t) ≤ alg.rank t) :
    ∀ (x : T) (hs : List ℚ) (y : T),
      y ∈ explicit_euler_steps alg operator threshold max_rank normalize x hs →
      (alg.rank y : ℕ∞) ≤ max_rank := by
  intro x hs
  induction hs generalizing x with
  | nil => intro y hy; simp [explicit_euler_steps] at hy
  | cons h t ih =>
    intro y hy
    simp only [explicit_euler_steps] at hy
    cases hy with
    | head =>
      split
      · exact le_trans (Nat.cast_le.mpr (Hsmul _ _)) (Hortho _ _ _)
      · exact Hortho _ _ _
    | tail _ hy' => exact ih _ y hy'

theorem sod_steps_rank {T : Type} (alg : TTAlg T) (operator : T)
    (threshold : ℚ) (max_rank : ℕ∞) (normalize : ℕ)
    (Hortho : ∀ (t : T) (th : ℚ) (R : ℕ∞), (alg.rank (alg.ortho t th R) : ℕ∞) ≤ R)
    (Hsmul : ∀ (c : ℚ) (t : T), alg.rank (alg.smul c t) ≤ alg.rank t) :
    ∀ (prev cur : T) (hs : List ℚ) (y : T),
      y ∈ sod_steps alg operator threshold max_rank normalize prev cur hs →
      (alg.rank y : ℕ∞) ≤ max_rank := by
  intro prev cur hs
  induction hs generalizing prev cur with
  | nil => intro y hy; simp [sod_steps] at hy
  | cons h t ih =>
    intro y hy
    simp only [sod_steps] at hy
    cases hy with
    | head =>
      split
      · exact le_trans (Nat.cast_le.mpr (Hsmul _ _)) (Hortho _ _ _)
      · exact Hortho _ _ _
    | tail _ hy' => exact ih _ _ y hy'

theorem implicit_euler_steps_mals_rank {T : Type} (alg : TTAlg T) (operator : T)
    (repeats : ℕ) (threshold : ℚ) (max_rank : ℕ∞) (micro_solver : String) (normalize : ℕ)
    (Hmals : ∀ (op g r : T) (sv : String) (th : ℚ) (n : ℕ) (R : ℕ∞),
      (alg.rank (alg.mals op g r sv th n R) : ℕ∞) ≤ R)
    (Hsmul : ∀ (c : ℚ) (t : T), alg.rank (alg.smul c t) ≤ alg.rank t) :
    ∀ (tmp x : T) (hs : List ℚ) (y : T),
      y ∈ implicit_euler_steps alg operator repeats "mals" threshold max_rank
        micro_solver normalize tmp x hs →
      (alg.rank y : ℕ∞) ≤ max_rank := by
  intro tmp x hs
  induction hs generalizing tmp x with
  | nil => intro y hy; simp [implicit_euler_steps] at hy
  | cons h t ih =>
    intro y hy
    simp only [implicit_euler_steps, if_neg (by decide : ¬ ("mals" = "als")),
      if_pos (rfl : "mals" = "mals")] at hy
    cases hy with
    | head =>
      split
      · exact le_trans (Nat.cast_le.mpr (Hsmul _ _)) (Hmals _ _ _ _ _ _ _)
      · exact Hmals _ _ _ _ _ _ _
    | tail _ hy' => exact ih _ _ y hy'

theorem trapezoidal_rule_steps_mals_rank {T : Type} (alg : TTAlg T) (operator : T)
    (repeats : ℕ) (threshold : ℚ) (max_rank : ℕ∞) (micro_solver : String)
    (Hmals : ∀ (op g r : T) (sv : String) (th : ℚ) (n : ℕ) (R : ℕ∞),
      (alg.rank (alg.mals op g r sv th n R) : ℕ∞) ≤ R)
    (Hsmul : ∀ (c : ℚ) (t : T), alg.rank (alg.smul c t) ≤ alg.rank t) :
    ∀ (tmp x : T) (hs : List ℚ) (y : T),
      y ∈ trapezoidal_rule_steps alg operator repeats "mals" threshold max_rank
        micro_solver tmp x hs →
      (alg.rank y : ℕ∞) ≤ max_rank := by
  intro tmp x hs
  induction hs generalizing tmp x with
  | nil => intro y hy; simp [trapezoidal_rule_steps] at hy
  | cons h t ih =>
    intro y hy
    simp only [trapezoidal_rule_steps, if_neg (by decide : ¬ ("mals" = "als")),
      if_pos (rfl : "mals" = "mals")] at hy
    cases hy with
    | head => exact le_trans (Nat.cast_le.mpr (Hsmul _ _)) (Hmals _ _ _ _ _ _ _)
    | tail _ hy' => exact ih _ _ y hy'

theorem implicit_euler_steps_als_params {T : Type} (alg : TTAlg T) (operator : T)
    (repeats : ℕ) (micro_solver : String) (normalize : ℕ)
    (th₁ th₂ : ℚ) (R₁ R₂ : ℕ∞) :
    ∀ (tmp x : T) (hs : List ℚ),
      implicit_euler_steps alg operator repeats "als" th₁ R₁ micro_solver normalize tmp x hs =
      implicit_euler_steps alg operator repeats "als" th₂ R₂ micro_solver normalize tmp x hs := by
  intro tmp x hs
  induction hs generalizing tmp x with
  | nil => rfl
  | cons h t ih =>
    simp only [implicit_euler_steps, if_pos (rfl : "als" = "als"),
      if_neg (by decide : ¬ ("als" = "mals"))]
    rw [ih]

theorem trapezoidal_rule_steps_als_params {T : Type} (alg : TTAlg T) (operator : T)
    (repeats : ℕ) (micro_solver : String) (th₁ th₂ : ℚ) (R₁ R₂ : ℕ∞) :
    ∀ (tmp x : T) (hs : List ℚ),
      trapezoidal_rule_steps alg operator repeats "als" th₁ R₁ micro_solver tmp x hs =
      trapezoidal_rule_steps alg operator repeats "als" th₂ R₂ micro_solver tmp x hs := by
  intro tmp x hs
  induction hs generalizing tmp x with
  | nil => rfl
  | cons h t ih =>
    simp only [trapezoidal_rule_steps, if_pos (rfl : "als" = "als"),
      if_neg (by decide : ¬ ("als" = "mals"))]
    rw [ih]

theorem implicit_euler_steps_no_solver {T : Type} (alg : TTAlg T)
    (op op' : T) (repeats : ℕ) (tt_solver : String)
    (th th' : ℚ) (R R' : ℕ∞) (micro_solver : String) (normalize : ℕ)
    (h1 : tt_solver ≠ "als") (h2 : tt_solver ≠ "mals") :
    ∀ (tmp x : T) (hs : List ℚ),
      implicit_euler_steps alg op repeats tt_solver th R micro_solver normalize tmp x hs =
      implicit_euler_steps alg op' repeats tt_solver th' R' micro_solver normalize tmp x hs := by
  intro tmp x hs
  induction hs generalizing tmp x with
  | nil => rfl
  | cons h t ih =>
    simp only [implicit_euler_steps, if_neg h1, if_neg h2]
    rw [ih]

theorem eq_setLog_of_stripLog_eq {T : Type} {z s : AdaptiveState T}
    (h : stripLog z = stripLog s) : z = { s with log := z.log } := by
  obtain ⟨a1, a2, a3, a4, a5, a6, a7, a8⟩ := z
  obtain ⟨b1, b2, b3, b4, b5, b6, b7, b8⟩ := s
  simp only [stripLog, AdaptiveState.mk.injEq, and_true] at h
  obtain ⟨e1, e2, e3, e4, e5, e6, e7⟩ := h
  subst e1; subst e2; subst e3; subst e4; subst e5; subst e6; subst e7
  rfl

theorem adaptiveBody_stripLog {T : Type} (alg : TTAlg T) (operator : T) (p : AdaptiveParams)
    (b : Bool) (s₁ s₂ : AdaptiveState T) (hstrip : stripLog s₁ = stripLog s₂) :
    (adaptiveBody alg operator { p with progress := b } s₁).map stripLog =
      (adaptiveBody alg operator p s₂).map stripLog := by
  rw [eq_setLog_of_stripLog_eq hstrip]
  obtain ⟨a1, a2, a3, a4, a5, a6, a7, a8⟩ := s₂
  cases a7 with
  | fin h =>
    cases ht2 : adaptT2raw alg operator p ⟨a1, a2, a3, a4, a5, a6, .fin h, a8⟩ h with
    | none =>
      have ht2' : adaptT2raw alg operator { p with progress := b }
          (⟨a1, a2, a3, a4, a5, a6, .fin h, s₁.log⟩ : AdaptiveState T) h = none := ht2
      rw [adaptiveBody_eq_error _ _ _ _ rfl ht2', adaptiveBody_eq_error _ _ _ _ rfl ht2]
    | some t2r =>
      have ht2' : adaptT2raw alg operator { p with progress := b }
          (⟨a1, a2, a3, a4, a5, a6, .fin h, s₁.log⟩ : AdaptiveState T) h = some t2r := ht2
      rw [adaptiveBody_eq_ok _ _ _ _ rfl ht2', adaptiveBody_eq_ok _ _ _ _ rfl ht2]
      simp only [Except.map, Except.ok.injEq]
      cases hacc : adaptAccept alg operator p ⟨a1, a2, a3, a4, a5, a6, .fin h, a8⟩ h t2r with
      | true =>
        have hacc' : adaptAccept alg operator { p with progress := b }
            (⟨a1, a2, a3, a4, a5, a6, .fin h, s₁.log⟩ : AdaptiveState T) h t2r = true := hacc
        rw [adaptStep_accept_eq _ _ _ _ _ _ hacc', adaptStep_accept_eq _ _ _ _ _ _ hacc]
        rfl
      | false =>
        have hacc' : adaptAccept alg operator { p with progress := b }
            (⟨a1, a2, a3, a4, a5, a6, .fin h, s₁.log⟩ : AdaptiveState T) h t2r = false := hacc
        rw [adaptStep_reject_eq _ _ _ _ _ _ hacc', adaptStep_reject_eq _ _ _ _ _ _ hacc]
        rfl
  | posInf =>
    rw [adaptiveBody_eq_id _ _ _ _ (Or.inl rfl), adaptiveBody_eq_id _ _ _ _ (Or.inl rfl)]
    rfl
  | negInf =>
    rw [adaptiveBody_eq_id _ _ _ _ (Or.inr (Or.inl rfl)),
      adaptiveBody_eq_id _ _ _ _ (Or.inr (Or.inl rfl))]
    rfl
  | nan =>
    rw [adaptiveBody_eq_id _ _ _ _ (Or.inr (Or.inr rfl)),
      adaptiveBody_eq_id _ _ _ _ (Or.inr (Or.inr rfl))]
    rfl

theorem adaptiveLoop_stripLog {T : Type} (alg : TTAlg T) (operator : T) (p : AdaptiveParams)
    (b : Bool) :
    ∀ (fuel : ℕ) (s₁ s₂ : AdaptiveState T), stripLog s₁ = stripLog s₂ →
      (adaptiveLoop alg operator { p with progress := b } fuel s₁).map stripLog =
      (adaptiveLoop alg operator p fuel s₂).map stripLog := by
  intro fuel
  induction fuel with
  | zero =>
    intro s₁ s₂ hstrip
    unfold adaptiveLoop
    simp only [Except.map]
    rw [hstrip]
  | succ n ih =>
    intro s₁ s₂ hstrip
    unfold adaptiveLoop
    have hg : adaptiveGuard { p with progress := b } s₁ = adaptiveGuard p s₂ := by
      rw [eq_setLog_of_stripLog_eq hstrip]
      rfl
    rw [hg]
    by_cases hguard : adaptiveGuard p s₂ = true
    · rw [if_pos hguard, if_pos hguard]
      have hstr := adaptiveBody_stripLog alg operator p b s₁ s₂ hstrip
      cases hb : adaptiveBody alg operator p s₂ with
      | error e =>
        cases e
        cases hb' : adaptiveBody alg operator { p with progress := b } s₁ with
        | error e' =>
          cases e'
          rfl
        | ok z =>
          rw [hb, hb'] at hstr
          simp [Except.map] at hstr
      | ok w =>
        cases hb' : adaptiveBody alg operator { p with progress := b } s₁ with
        | error e' =>
          rw [hb, hb'] at hstr
          simp [Except.map] at hstr
        | ok z =>
          rw [hb, hb'] at hstr
          simp only [Except.map, Except.ok.injEq] at hstr
          show (adaptiveLoop alg operator { p with progress := b } n z).map stripLog =
            (adaptiveLoop alg operator p n w).map stripLog
          exact ih z w hstr
    · rw [if_neg hguard, if_neg hguard]
      simp only [Except.map]
      rw [hstrip]

/-- C8: every fixed-step integrator, given `n` step sizes, returns a
trajectory of exactly `n+1` tensors whose element at index 0 is the supplied
initial value (one element appended per step size). -/
theorem c8_fixed_step_shape {T : Type} (alg : TTAlg T)
    (operator initial_value initial_guess : T) (step_sizes : List ℚ)
    (threshold : ℚ) (max_rank : ℕ∞) (normalize : ℕ) (repeats : ℕ)
    (tt_solver micro_solver : String) (progress : Bool) :
    ((explicit_euler alg operator initial_value step_sizes threshold max_rank
        normalize progress).1.length = step_sizes.length + 1 ∧
      (explicit_euler alg operator initial_value step_sizes threshold max_rank
        normalize progress).1.head? = some initial_value) ∧
    ((sod alg operator initial_value step_sizes threshold max_rank
        normalize progress).1.length = step_sizes.length + 1 ∧
      (sod alg operator initial_value step_sizes threshold max_rank
        normalize progress).1.head? = some initial_value) ∧
    ((implicit_euler alg operator initial_value initial_guess step_sizes repeats
        tt_solver threshold max_rank micro_solver normalize progress).1.length =
        step_sizes.length + 1 ∧
      (implicit_euler alg operator initial_value initial_guess step_sizes repeats
        tt_solver threshold max_rank micro_solver normalize progress).1.head? =
        some initial_value) ∧
    ((trapezoidal_rule alg operator initial_value initial_guess step_sizes repeats
        tt_solver threshold max_rank micro_solver progress).1.length =
        step_sizes.length + 1 ∧
      (trapezoidal_rule alg operator initial_value initial_guess step_sizes repeats
        tt_solver threshold max_rank micro_solver progress).1.head? =
        some initial_value) := by
  refine ⟨⟨?_, rfl⟩, ⟨?_, rfl⟩, ⟨?_, rfl⟩, ⟨?_, rfl⟩⟩
  · simp [explicit_euler, explicit_euler_steps_length]
  · cases step_sizes with
    | nil => rfl
    | cons h0 t => simp [sod, sod_steps_length]
  · simp [implicit_euler, implicit_euler_steps_length]
  · simp [trapezoidal_rule, trapezoidal_rule_steps_length]

/-- C9: with `tt_solver = 'als'`, the `threshold` and `max_rank` parameters of
`implicit_euler` and `trapezoidal_rule` have no effect on the returned
solution: they are only forwarded to the solver in the `'mals'` branch, and no
truncation is performed in the stepping loop. -/
theorem c9_als_ignores_truncation_params {T : Type} (alg : TTAlg T)
    (operator initial_value initial_guess : T) (step_sizes : List ℚ)
    (repeats : ℕ) (micro_solver : String) (normalize : ℕ) (progress : Bool)
    (th₁ th₂ : ℚ) (R₁ R₂ : ℕ∞) :
    implicit_euler alg operator initial_value initial_guess step_sizes repeats
        "als" th₁ R₁ micro_solver normalize progress =
      implicit_euler alg operator initial_value initial_guess step_sizes repeats
        "als" th₂ R₂ micro_solver normalize progress ∧
    trapezoidal_rule alg operator initial_value initial_guess step_sizes repeats
        "als" th₁ R₁ micro_solver progress =
      trapezoidal_rule alg operator initial_value initial_guess step_sizes repeats
        "als" th₂ R₂ micro_solver progress := by
  constructor
  · unfold implicit_euler
    rw [implicit_euler_steps_als_params alg operator repeats micro_solver normalize th₁ th₂ R₁ R₂]
  · unfold trapezoidal_rule
    rw [trapezoidal_rule_steps_als_params alg operator repeats micro_solver th₁ th₂ R₁ R₂]

/-- C7: with `normalize = p` for `p ∈ {1, 2}`, every trajectory element of
index at least 1 returned by `explicit_euler`, `sod` or `implicit_euler` has
p-norm 1; `trapezoidal_rule` always normalizes every appended element in the
1-norm (its signature has no `normalize` option at all).  The hypotheses state
the normalization property of the external norm/scaling pair. -/
theorem c7_normalization_invariant {T : Type} (alg : TTAlg T)
    (operator initial_value initial_guess : T) (step_sizes : List ℚ)
    (threshold : ℚ) (max_rank : ℕ∞) (normalize : ℕ) (repeats : ℕ)
    (tt_solver micro_solver : String) (progress : Bool)
    (hp : normalize = 1 ∨ normalize = 2)
    (Hn : ∀ t : T, alg.norm (alg.smul (1 / alg.norm t normalize) t) normalize = 1)
    (H1 : ∀ t : T, alg.norm (alg.smul (1 / alg.norm t 1) t) 1 = 1) :
    (∀ y ∈ (explicit_euler alg operator initial_value step_sizes threshold max_rank
        normalize progress).1.tail, alg.norm y normalize = 1) ∧
    (∀ y ∈ (sod alg operator initial_value step_sizes threshold max_rank
        normalize progress).1.tail, alg.norm y normalize = 1) ∧
    (∀ y ∈ (implicit_euler alg operator initial_value initial_guess step_sizes repeats
        tt_solver threshold max_rank micro_solver normalize progress).1.tail,
      alg.norm y normalize = 1) ∧
    (∀ y ∈ (trapezoidal_rule alg operator initial_value initial_guess step_sizes repeats
        tt_solver threshold max_rank micro_solver progress).1.tail,
      alg.norm y 1 = 1) := by
  have hnz : 0 < normalize := by rcases hp with rfl | rfl <;> norm_num
  refine ⟨?_, ?_, ?_, ?_⟩
  · intro y hy
    exact explicit_euler_steps_norm_one alg operator threshold max_rank normalize hnz Hn
      initial_value step_sizes y hy
  · intro y hy
    cases step_sizes with
    | nil => simp [sod] at hy
    | cons h0 t =>
      exact sod_steps_norm_one alg operator threshold max_rank normalize hnz Hn
        _ initial_value (h0 :: t) y hy
  · intro y hy
    exact implicit_euler_steps_norm_one alg operator repeats tt_solver threshold max_rank
      micro_solver normalize hnz Hn initial_guess initial_value step_sizes y hy
  · intro y hy
    exact trapezoidal_rule_steps_norm_one alg operator repeats tt_solver threshold max_rank
      micro_solver H1 initial_guess initial_value step_sizes y hy

/-- Witness for C7: the theorem applied to the one-point model at a concrete
run with one step. -/
theorem c7_witness :
    ((1 : ℕ) = 1 ∨ (1 : ℕ) = 2) ∧
    (∀ y ∈ (explicit_euler unitAlg () () [1] 0 ⊤ 1 true).1.tail,
      unitAlg.norm y 1 = 1) :=
  ⟨Or.inl rfl,
    (c7_normalization_invariant unitAlg () () () [1] 0 ⊤ 1 1 "als" "solve" true
      (Or.inl rfl) (fun _ => rfl) (fun _ => rfl)).1⟩

/-- Counterexample to C5: in the rank-tracking model, truncation and the
rank-adaptive solver respect the `max_rank` they are given, yet an
`implicit_euler` run with `tt_solver = 'als'` and `max_rank = 50` appends an
element of rank 99 (the `als` call is handed no `max_rank` and no truncation
is performed in the loop), so not every trajectory element has rank at most
50. -/
theorem c5_counterexample :
    (∀ (t : ℕ) (th : ℚ) (R : ℕ∞), (rankAlg.rank (rankAlg.ortho t th R) : ℕ∞) ≤ R) ∧
    (∀ (op g r : ℕ) (sv : String) (th : ℚ) (n : ℕ) (R : ℕ∞),
      (rankAlg.rank (rankAlg.mals op g r sv th n R) : ℕ∞) ≤ R) ∧
    (implicit_euler rankAlg 5 7 99 [1] 1 "als" 0 (50 : ℕ∞) "solve" 1 true).1 = [7, 99] ∧
    ¬ (∀ y ∈ (implicit_euler rankAlg 5 7 99 [1] 1 "als" 0 (50 : ℕ∞) "solve" 1 true).1,
        (rankAlg.rank y : ℕ∞) ≤ (50 : ℕ∞)) := by
  refine ⟨?_, ?_, ?_, ?_⟩
  · intro t th R
    unfold rankAlg
    dsimp
    split
    · assumption
    · simp
  · intro op g r sv th n R
    unfold rankAlg
    dsimp
    split
    · assumption
    · simp
  · simp only [implicit_euler, implicit_euler_steps,
      if_pos (rfl : "als" = "als"), if_neg (by decide : ¬ ("als" = "mals"))]
    norm_num [rankAlg, sysMat]
  · intro H
    have h99 := H 99 (by
      simp only [implicit_euler, implicit_euler_steps,
        if_pos (rfl : "als" = "als"), if_neg (by decide : ¬ ("als" = "mals"))]
      norm_num [rankAlg, sysMat])
    rw [show rankAlg.rank 99 = 99 from rfl] at h99
    exact absurd h99 (by decide)

/-- C5 amended: with the truncation and rank-adaptive-solver primitives
returning results of rank at most the `max_rank` they are given and scaling
not increasing rank, every APPENDED trajectory element (index at least 1) of
`explicit_euler` and `sod` has rank at most `max_rank`, and the same holds for
`implicit_euler` and `trapezoidal_rule` when `tt_solver = 'mals'`.  (The
initial element keeps whatever rank the caller supplied, and the `'als'`
branch enforces no rank cap, as the counterexample shows.) -/
theorem c5_rank_bound_amended {T : Type} (alg : TTAlg T)
    (operator initial_value initial_guess : T) (step_sizes : List ℚ)
    (threshold : ℚ) (max_rank : ℕ∞) (normalize : ℕ) (repeats : ℕ)
    (micro_solver : String) (progress : Bool)
    (Hortho : ∀ (t : T) (th : ℚ) (R : ℕ∞), (alg.rank (alg.ortho t th R) : ℕ∞) ≤ R)
    (Hmals : ∀ (op g r : T) (sv : String) (th : ℚ) (n : ℕ) (R : ℕ∞),
      (alg.rank (alg.mals op g r sv th n R) : ℕ∞) ≤ R)
    (Hsmul : ∀ (c : ℚ) (t : T), alg.rank (alg.smul c t) ≤ alg.rank t) :
    (∀ y ∈ (explicit_euler alg operator initial_value step_sizes threshold max_rank
        normalize progress).1.tail, (alg.rank y : ℕ∞) ≤ max_rank) ∧
    (∀ y ∈ (sod alg operator initial_value step_sizes threshold max_rank
        normalize progress).1.tail, (alg.rank y : ℕ∞) ≤ max_rank) ∧
    (∀ y ∈ (implicit_euler alg operator initial_value initial_guess step_sizes repeats
        "mals" threshold max_rank micro_solver normalize progress).1.tail,
      (alg.rank y : ℕ∞) ≤ max_rank) ∧
    (∀ y ∈ (trapezoidal_rule alg operator initial_value initial_guess step_sizes repeats
        "mals" threshold max_rank micro_solver progress).1.tail,
      (alg.rank y : ℕ∞) ≤ max_rank) := by
  refine ⟨?_, ?_, ?_, ?_⟩
  · intro y hy
    exact explicit_euler_steps_rank alg operator threshold max_rank normalize Hortho Hsmul
      initial_value step_sizes y hy
  · intro y hy
    cases step_sizes with
    | nil => simp [sod] at hy
    | cons h0 t =>
      exact sod_steps_rank alg operator threshold max_rank normalize Hortho Hsmul
        _ initial_value (h0 :: t) y hy
  · intro y hy
    exact implicit_euler_steps_mals_rank alg operator repeats threshold max_rank
      micro_solver normalize Hmals Hsmul initial_guess initial_value step_sizes y hy
  · intro y hy
    exact trapezoidal_rule_steps_mals_rank alg operator repeats threshold max_rank
      micro_solver Hmals Hsmul initial_guess initial_value step_sizes y hy

/-- Witness for the amended C5: the rank-tracking model satisfies the three
primitive hypotheses, and the theorem bounds the appended element of a
concrete explicit Euler run whose initial value has rank 60 over the cap
50. -/
theorem c5_witness :
    0 ∈ (explicit_euler rankAlg 5 60 [1] 0 (50 : ℕ∞) 1 true).1.tail ∧
    (rankAlg.rank 0 : ℕ∞) ≤ (50 : ℕ∞) := by
  have hmem : (0 : ℕ) ∈ (explicit_euler rankAlg 5 60 [1] 0 (50 : ℕ∞) 1 true).1.tail := by
    simp only [explicit_euler, explicit_euler_steps]
    norm_num [rankAlg, sysMat]
  refine ⟨hmem, ?_⟩
  exact (c5_rank_bound_amended rankAlg 5 60 60 [1] 0 (50 : ℕ∞) 1 1 "solve" true
    (by intro t th R; unfold rankAlg; dsimp; split; · assumption
        · simp)
    (by intro op g r sv th n R; unfold rankAlg; dsimp; split; · assumption
        · simp)
    (fun c t => le_refl _)).1 0 hmem

/-- C10: the numerical output of every integrator and of the adaptive
controller is the same whether the progress flag is on or off; the flag only
changes the reported progress events. -/
theorem c10_progress_noninterference {T : Type} (alg : TTAlg T)
    (operator initial_value initial_guess : T) (step_sizes : List ℚ)
    (threshold : ℚ) (max_rank : ℕ∞) (normalize : ℕ) (repeats : ℕ)
    (tt_solver micro_solver : String) (p : AdaptiveParams) (b₁ b₂ : Bool) (fuel : ℕ) :
    (explicit_euler alg operator initial_value step_sizes threshold max_rank
        normalize b₁).1 =
      (explicit_euler alg operator initial_value step_sizes threshold max_rank
        normalize b₂).1 ∧
    (sod alg operator initial_value step_sizes threshold max_rank normalize b₁).1 =
      (sod alg operator initial_value step_sizes threshold max_rank normalize b₂).1 ∧
    (implicit_euler alg operator initial_value initial_guess step_sizes repeats
        tt_solver threshold max_rank micro_solver normalize b₁).1 =
      (implicit_euler alg operator initial_value initial_guess step_sizes repeats
        tt_solver threshold max_rank micro_solver normalize b₂).1 ∧
    (trapezoidal_rule alg operator initial_value initial_guess step_sizes repeats
        tt_solver threshold max_rank micro_solver b₁).1 =
      (trapezoidal_rule alg operator initial_value initial_guess step_sizes repeats
        tt_solver threshold max_rank micro_solver b₂).1 ∧
    (adaptive_step_size alg operator { p with progress := b₁ } initial_value
        initial_guess fuel).map (fun r => (r.1, r.2.1)) =
      (adaptive_step_size alg operator { p with progress := b₂ } initial_value
        initial_guess fuel).map (fun r => (r.1, r.2.1)) := by
  refine ⟨rfl, rfl, rfl, rfl, ?_⟩
  have h1 := adaptiveLoop_stripLog alg operator p b₁ fuel
    (initState alg operator { p with progress := b₁ } initial_value initial_guess)
    (initState alg operator p initial_value initial_guess) rfl
  have h2 := adaptiveLoop_stripLog alg operator p b₂ fuel
    (initState alg operator { p with progress := b₂ } initial_value initial_guess)
    (initState alg operator p initial_value initial_guess) rfl
  have hh := h1.trans h2.symm
  unfold adaptive_step_size
  cases hA : adaptiveLoop alg operator { p with progress := b₁ } fuel
      (initState alg operator { p with progress := b₁ } initial_value initial_guess) with
  | error e =>
    cases hB : adaptiveLoop alg operator { p with progress := b₂ } fuel
        (initState alg operator { p with progress := b₂ } initial_value initial_guess) with
    | error e' =>
      cases e
      cases e'
      rfl
    | ok z =>
      rw [hA, hB] at hh
      simp [Except.map] at hh
  | ok w =>
    cases hB : adaptiveLoop alg operator { p with progress := b₂ } fuel
        (initState alg operator { p with progress := b₂ } initial_value initial_guess) with
    | error e' =>
      rw [hA, hB] at hh
      simp [Except.map] at hh
    | ok z =>
      rw [hA, hB] at hh
      simp only [Except.map, Except.ok.injEq] at hh
      show Except.ok (w.solution, w.time_steps) = Except.ok (z.solution, z.time_steps)
      have hsol : w.solution = z.solution := by
        have h3 := congrArg AdaptiveState.solution hh
        exact h3
      have hts : w.time_steps = z.time_steps := by
        have h3 := congrArg AdaptiveState.time_steps hh
        exact h3
      rw [hsol, hts]

/-- Counterexample to C1: in the scalar model (where a solve's result depends
on both its guess and its right-hand side), the secondary candidate actually
computed by the source for `two_step_Euler` differs from the spec's chained
version in which the second solve's right-hand side is the first solve's
result: on the initial state of a concrete run the source computes 8, the
chained version 10. -/
theorem c1_counterexample :
    adaptT2raw ratAlg 3 cexParams (initState ratAlg 3 cexParams 2 4) 1 = some 8 ∧
    adaptT2chained ratAlg 3 cexParams (initState ratAlg 3 cexParams 2 4) 1 = 10 ∧
    adaptT2raw ratAlg 3 cexParams (initState ratAlg 3 cexParams 2 4) 1 ≠
      some (adaptT2chained ratAlg 3 cexParams (initState ratAlg 3 cexParams 2 4) 1) := by
  refine ⟨?_, ?_, ?_⟩
  · norm_num [adaptT2raw, adaptLast, initState, cexParams, ratAlg, sysMat,
      (by decide : ¬ ("two_step_Euler" = "trapezoidal_rule"))]
  · norm_num [adaptT2chained, adaptLast, initState, cexParams, ratAlg, sysMat]
  · norm_num [adaptT2raw, adaptT2chained, adaptLast, initState, cexParams, ratAlg, sysMat,
      (by decide : ¬ ("two_step_Euler" = "trapezoidal_rule"))]

/-- C1 amended: for `second_method = 'two_step_Euler'` the secondary candidate
is produced by two successive solves with the same half-step system matrix
`I - 0.5h·A`, where the second solve receives the result of the first solve as
its INITIAL GUESS (warm start) while its right-hand side is again
`solution[-1]`, the same right-hand side as the first solve. -/
theorem c1_two_step_euler_structure {T : Type} (alg : TTAlg T) (operator : T)
    (p : AdaptiveParams) (s : AdaptiveState T) (h : ℚ)
    (hm : p.second_method = "two_step_Euler") :
    adaptT2raw alg operator p s h =
      some (alg.als (sysMat alg operator (1/2 * h))
        (alg.als (sysMat alg operator (1/2 * h)) s.t_tmp (adaptLast s) p.solver p.repeats)
        (adaptLast s) p.solver p.repeats) := by
  simp only [adaptT2raw]
  rw [if_pos hm, if_neg (show ¬ (p.second_method = "trapezoidal_rule") by
    rw [hm]; decide)]

/-- Witness for the amended C1, at the concrete run of the counterexample. -/
theorem c1_witness :
    adaptT2raw ratAlg 3 cexParams (initState ratAlg 3 cexParams 2 4) 1 =
      some (ratAlg.als (sysMat ratAlg 3 (1/2 * 1))
        (ratAlg.als (sysMat ratAlg 3 (1/2 * 1))
          (initState ratAlg 3 cexParams 2 4).t_tmp
          (adaptLast (initState ratAlg 3 cexParams 2 4)) cexParams.solver cexParams.repeats)
        (adaptLast (initState ratAlg 3 cexParams 2 4)) cexParams.solver cexParams.repeats) :=
  c1_two_step_euler_structure ratAlg 3 cexParams (initState ratAlg 3 cexParams 2 4) 1 rfl

/-- Counterexample to C2: there is no configuration validation.  With the
unknown `tt_solver` value `'bogus'`, `implicit_euler` does not fail before
stepping: it runs the whole loop and returns a full-length trajectory (here 3
elements for 2 step sizes).  With an unknown `second_method`, the adaptive
controller does not fail before stepping either: it fails in the middle of the
first loop iteration (modelled as the `.error` result), after the primary
solve has already been carried out. -/
theorem c2_counterexample :
    (implicit_euler ratAlg 3 2 4 [1, 1] 1 "bogus" 0 ⊤ "solve" 1 true).1.length = 3 ∧
    adaptiveLoop ratAlg 3 { cexParams with second_method := "bogus" } 1
      (initState ratAlg 3 { cexParams with second_method := "bogus" } 2 4) =
      .error () := by
  constructor
  · simp [implicit_euler, implicit_euler_steps_length]
  · norm_num [adaptiveLoop, adaptiveGuard, adaptiveBody, adaptT2raw, initState, cexParams,
      NpQ.gtQ, ratAlg, Except.bind,
      (by decide : ¬ ("bogus" = "trapezoidal_rule")),
      (by decide : ¬ ("bogus" = "two_step_Euler"))]

/-- C2 amended: the integration entry points perform no validation of the
enumerated options and never fail fast.  `implicit_euler` with a `tt_solver`
outside `{'als','mals'}` silently runs the whole loop: its result does not
even depend on the operator or the truncation parameters (the solve is
skipped; the unchanged temporary tensor is renormalized and appended each
step) and the trajectory still has full length.  The adaptive controller with
a `second_method` outside `{'two_step_Euler','trapezoidal_rule'}` fails only
mid-loop, at the normalization of the never-assigned secondary candidate,
after the first primary solve. -/
theorem c2_no_validation {T : Type} (alg : TTAlg T) (op op' : T)
    (initial_value initial_guess : T) (step_sizes : List ℚ) (repeats : ℕ)
    (tt_solver : String) (th th' : ℚ) (R R' : ℕ∞) (micro_solver : String)
    (normalize : ℕ) (progress : Bool) (p : AdaptiveParams) (s : AdaptiveState T) (h : ℚ)
    (h1 : tt_solver ≠ "als") (h2 : tt_solver ≠ "mals")
    (hm1 : p.second_method ≠ "two_step_Euler")
    (hm2 : p.second_method ≠ "trapezoidal_rule")
    (hss : s.step_size = .fin h) (ht2 : s.t2prev = none) :
    ((implicit_euler alg op initial_value initial_guess step_sizes repeats tt_solver
        th R micro_solver normalize progress).1 =
      (implicit_euler alg op' initial_value initial_guess step_sizes repeats tt_solver
        th' R' micro_solver normalize progress).1 ∧
      (implicit_euler alg op initial_value initial_guess step_sizes repeats tt_solver
        th R micro_solver normalize progress).1.length = step_sizes.length + 1) ∧
    adaptiveBody alg op p s = .error () := by
  refine ⟨⟨?_, ?_⟩, ?_⟩
  · unfold implicit_euler
    rw [implicit_euler_steps_no_solver alg op op' repeats tt_solver th th' R R'
      micro_solver normalize h1 h2]
  · simp [implicit_euler, implicit_euler_steps_length]
  · refine adaptiveBody_eq_error alg op p s hss ?_
    simp only [adaptT2raw]
    rw [if_neg hm2, if_neg hm1]
    exact ht2

/-- Witness for the amended C2, at the concrete inputs of the
counterexample. -/
theorem c2_witness :
    (implicit_euler ratAlg 3 2 4 [1, 1] 1 "bogus" 0 ⊤ "solve" 1 true).1 =
      (implicit_euler ratAlg 7 2 4 [1, 1] 1 "bogus" 5 (2 : ℕ∞) "solve" 1 true).1 ∧
    adaptiveBody ratAlg 3 { cexParams with second_method := "bogus" }
      (initState ratAlg 3 { cexParams with second_method := "bogus" } 2 4) =
      .error () :=
  ⟨((c2_no_validation ratAlg 3 7 2 4 [1, 1] 1 "bogus" 0 5 ⊤ (2 : ℕ∞) "solve" 1 true
      { cexParams with second_method := "bogus" }
      (initState ratAlg 3 { cexParams with second_method := "bogus" } 2 4) 1
      (by decide) (by decide) (by decide) (by decide) rfl rfl).1).1,
    ((c2_no_validation ratAlg 3 7 2 4 [1, 1] 1 "bogus" 0 5 ⊤ (2 : ℕ∞) "solve" 1 true
      { cexParams with second_method := "bogus" }
      (initState ratAlg 3 { cexParams with second_method := "bogus" } 2 4) 1
      (by decide) (by decide) (by decide) (by decide) rfl rfl).2)⟩

/-- Counterexample to C3: with `factor_safe = 2` (the source validates no
parameter), the first iteration of a concrete run is rejected — the trajectory
and time stamps stay `[2]` and `[0]`, the state is unchanged — yet
`step_size` GROWS from 1 to 8/5 (rejection sets
`step_size = step_size_new = min(factor_max, factor_safe·factor_local,
factor_safe·factor_closeness)·step_size`, which exceeds the old value because
`factor_safe·factor_closeness = 2·(4/5) = 8/5 > 1`).  So a rejected iteration
does not always strictly decrease the step size. -/
theorem c3_counterexample :
    adaptiveLoop ratAlg 3 cexParams 1 (initState ratAlg 3 cexParams 2 4) =
      Except.ok { solution := [2], time_steps := [0], closeness_pre := 6, t_tmp := 4,
                  t2prev := some 1, time := 0, step_size := .fin (8/5),
                  log := [⟨"Running adaptive step size method", 0, false⟩] } ∧
    (initState ratAlg 3 cexParams 2 4).step_size = .fin 1 ∧ (1 : ℚ) < 8/5 := by
  refine ⟨?_, rfl, by norm_num⟩
  norm_num [adaptiveLoop, adaptiveGuard, adaptiveBody, adaptT2raw, adaptStep, adaptAccept,
    adaptFactorLocal, adaptFactorCloseness, adaptLocalError, adaptClosenessDiff,
    adaptCloseness, adaptT1, adaptT2, adaptLast, adaptStepSizeNew, initState, cexParams,
    ratAlg, sysMat, npdiv, npdivN, npAbs, npMulQ, npMin, NpQ.gtQ, Except.bind, min_def,
    (by decide : ¬ ("two_step_Euler" = "trapezoidal_rule")),
    (by decide : "two_step_Euler" = "two_step_Euler")]

/-- C3 amended: in every controller iteration the candidate `t_1` is appended
exactly when `factor_local > 1` and `factor_closeness > 1`; a rejected
iteration leaves the trajectory, the time stamps, the current state, the time
and `previous_closeness` unchanged and only sets
`step_size = step_size_new` (and the loop-carried `t_2`); and — provided
`0 < factor_safe < 1` (as the default 0.9; the counterexample shows the claim
fails for `factor_safe ≥ 1`), positive tolerances, `factor_max ≥ 0`,
nonnegative norms, a positive step size and factors that are not nan —
rejection strictly decreases the step size. -/
theorem c3_accept_reject_semantics {T : Type} (alg : TTAlg T) (operator : T)
    (p : AdaptiveParams) (s : AdaptiveState T) (h : ℚ) (t2r : T) :
    ((adaptStep alg operator p s h t2r).solution =
      (if adaptAccept alg operator p s h t2r
        then s.solution ++ [adaptT1 alg operator p s h] else s.solution)) ∧
    (adaptAccept alg operator p s h t2r = false →
      adaptStep alg operator p s h t2r =
        { s with t2prev := some (adaptT2 alg t2r),
                 step_size := adaptStepSizeNew alg operator p s h t2r }) ∧
    (s.step_size = .fin h → adaptT2raw alg operator p s h = some t2r →
      adaptiveBody alg operator p s = .ok (adaptStep alg operator p s h t2r)) ∧
    (adaptAccept alg operator p s h t2r = false →
      (∀ t k, 0 ≤ alg.norm t k) → 0 < p.error_tol → 0 < p.closeness_tol →
      0 < p.factor_safe → p.factor_safe < 1 → 0 ≤ p.factor_max → 0 < h →
      adaptFactorLocal alg operator p s h t2r ≠ .nan →
      adaptFactorCloseness alg operator p s h ≠ .nan →
      ∃ h', (adaptStep alg operator p s h t2r).step_size = .fin h' ∧ h' < h) := by
  refine ⟨?_, ?_, ?_, ?_⟩
  · cases hacc : adaptAccept alg operator p s h t2r with
    | true =>
      rw [adaptStep_accept_eq alg operator p s h t2r hacc, if_pos rfl]
    | false =>
      rw [adaptStep_reject_eq alg operator p s h t2r hacc, if_neg (by simp)]
  · intro hacc
    exact adaptStep_reject_eq alg operator p s h t2r hacc
  · intro hss ht2
    exact adaptiveBody_eq_ok alg operator p s hss ht2
  · intro hacc Hnorm het hct hfs0 hfs1 hfm hh hfl hfc
    obtain ⟨h', hn, hlt⟩ := reject_stepSizeNew_lt alg operator p s h t2r Hnorm het hct
      hfs0 hfs1 hfm hh hacc hfl hfc
    refine ⟨h', ?_, hlt⟩
    rw [adaptStep_reject_eq alg operator p s h t2r hacc]
    exact hn

theorem ratAlg_norm_nonneg : ∀ (t : ℚ) (k : ℕ), 0 ≤ ratAlg.norm t k := by
  intro t k
  show 0 ≤ if t < 0 then -t else t
  split <;> linarith

/-- Witness for the amended C3: in the counterexample run with the default
safety factor 0.9 the first iteration is still rejected and the step size now
strictly decreases. -/
theorem c3_witness :
    adaptAccept ratAlg 3 { cexParams with factor_safe := 9/10 }
      (initState ratAlg 3 { cexParams with factor_safe := 9/10 } 2 4) 1 8 = false ∧
    (∃ h', (adaptStep ratAlg 3 { cexParams with factor_safe := 9/10 }
        (initState ratAlg 3 { cexParams with factor_safe := 9/10 } 2 4) 1 8).step_size =
        .fin h' ∧ h' < 1) := by
  have hacc : adaptAccept ratAlg 3 { cexParams with factor_safe := 9/10 }
      (initState ratAlg 3 { cexParams with factor_safe := 9/10 } 2 4) 1 8 = false := by
    norm_num [adaptAccept, adaptFactorLocal, adaptFactorCloseness, adaptLocalError,
      adaptClosenessDiff, adaptCloseness, adaptT1, adaptT2, adaptLast, initState,
      cexParams, ratAlg, sysMat, npdiv, npdivN, npAbs, npMulQ, NpQ.gtQ]
  refine ⟨hacc, ?_⟩
  exact (c3_accept_reject_semantics ratAlg 3 { cexParams with factor_safe := 9/10 }
      (initState ratAlg 3 { cexParams with factor_safe := 9/10 } 2 4) 1 8).2.2.2 hacc
    ratAlg_norm_nonneg
    (by norm_num [cexParams])
    (by norm_num [cexParams])
    (by norm_num [cexParams])
    (by norm_num [cexParams])
    (by norm_num [cexParams])
    (by norm_num)
    (by norm_num [adaptFactorLocal, adaptLocalError, adaptT1, adaptT2, adaptLast,
      initState, cexParams, ratAlg, sysMat, npdiv, npdivN]
        <;> decide)
    (by norm_num [adaptFactorCloseness, adaptClosenessDiff, adaptCloseness, adaptT1,
      adaptLast, initState, cexParams, ratAlg, sysMat, npdiv, npdivN, npAbs]
        <;> decide)

/-- C4: when the computed `local_error` or `closeness_change` is exactly zero
(and the corresponding tolerance is positive, as tolerances are), the division
produces `+inf` rather than an error — the corresponding adaptation factor is
`+inf`, its `> 1` test succeeds, so a zero value never by itself causes
rejection; and the iteration completes normally (the body returns a state, it
has no failure path for zero divisions). -/
theorem c4_zero_treated_as_infinite_factor {T : Type} (alg : TTAlg T) (operator : T)
    (p : AdaptiveParams) (s : AdaptiveState T) (h : ℚ) (t2r : T) :
    (0 < p.error_tol → adaptLocalError alg operator p s h t2r = .fin 0 →
      adaptFactorLocal alg operator p s h t2r = .posInf ∧
      (adaptFactorLocal alg operator p s h t2r).gtQ 1 = true) ∧
    (0 < p.closeness_tol → adaptClosenessDiff alg operator p s h = .fin 0 →
      adaptFactorCloseness alg operator p s h = .posInf ∧
      (adaptFactorCloseness alg operator p s h).gtQ 1 = true) ∧
    (s.step_size = .fin h → adaptT2raw alg operator p s h = some t2r →
      ∃ s', adaptiveBody alg operator p s = .ok s') := by
  refine ⟨?_, ?_, ?_⟩
  · intro het heq
    have hpos : adaptFactorLocal alg operator p s h t2r = .posInf := by
      unfold adaptFactorLocal
      rw [heq]
      simp [npdivN, npdiv, het]
    exact ⟨hpos, by rw [hpos]; rfl⟩
  · intro hct heq
    have hpos : adaptFactorCloseness alg operator p s h = .posInf := by
      unfold adaptFactorCloseness
      rw [heq]
      simp [npAbs, npdivN, npdiv, hct]
    exact ⟨hpos, by rw [hpos]; rfl⟩
  · intro hss ht2
    exact ⟨adaptStep alg operator p s h t2r, adaptiveBody_eq_ok alg operator p s hss ht2⟩

/-- Witness for C4: in the concrete run the primary and secondary candidates
coincide, so `local_error` is exactly 0; the factor is `+inf`, its test
succeeds, and the body completes. -/
theorem c4_witness :
    adaptFactorLocal ratAlg 3 cexParams (initState ratAlg 3 cexParams 2 4) 1 8 = .posInf ∧
    (adaptFactorLocal ratAlg 3 cexParams (initState ratAlg 3 cexParams 2 4) 1 8).gtQ 1 =
      true := by
  have heq : adaptLocalError ratAlg 3 cexParams (initState ratAlg 3 cexParams 2 4) 1 8 =
      .fin 0 := by
    norm_num [adaptLocalError, adaptT1, adaptT2, adaptLast, initState, cexParams, ratAlg,
      sysMat, npdiv]
  exact (c4_zero_treated_as_infinite_factor ratAlg 3 cexParams
    (initState ratAlg 3 cexParams 2 4) 1 8).1 (by norm_num [cexParams]) heq

/-- C6: under the domain assumptions (nonnegative norms, positive tolerances
and safety factor, nonnegative `factor_max`, `step_size_max`, `time_end` and
`step_size_first`), the controller's time is non-decreasing across iterations
and never exceeds `time_end` — stated per body transition and for every
fuel-bounded run from the initial state — and after an accepted step the new
step size is finite and clamped to at most `time_end - time` (with the updated
time) and at most `step_size_max`. -/
theorem c6_adaptive_monotonicity {T : Type} (alg : TTAlg T) (operator : T)
    (p : AdaptiveParams) (initial_value initial_guess : T)
    (Hnorm : ∀ t k, 0 ≤ alg.norm t k) (het : 0 < p.error_tol)
    (hct : 0 < p.closeness_tol) (hfs : 0 < p.factor_safe) (hfm : 0 ≤ p.factor_max)
    (hsm : 0 ≤ p.step_size_max) (hte : 0 ≤ p.time_end) (hsf : 0 ≤ p.step_size_first) :
    (∀ s s' : AdaptiveState T, adaptInv p s → adaptiveBody alg operator p s = .ok s' →
      s.time ≤ s'.time ∧ s'.time ≤ p.time_end ∧ adaptInv p s') ∧
    (∀ (fuel : ℕ) (s' : AdaptiveState T),
      adaptiveLoop alg operator p fuel
          (initState alg operator p initial_value initial_guess) = .ok s' →
      0 ≤ s'.time ∧ s'.time ≤ p.time_end) ∧
    (∀ (s : AdaptiveState T) (h : ℚ) (t2r : T),
      adaptAccept alg operator p s h t2r = true →
      ∃ h', (adaptStep alg operator p s h t2r).step_size = .fin h' ∧
        h' ≤ p.time_end - (adaptStep alg operator p s h t2r).time ∧
        h' ≤ p.step_size_max) := by
  refine ⟨?_, ?_, ?_⟩
  · intro s s' hinv hbody
    obtain ⟨hinv', hmono⟩ := adaptiveBody_inv Hnorm het hct hfs hfm hsm hinv hbody
    exact ⟨hmono, hinv'.1, hinv'⟩
  · intro fuel s' hl
    have hinv0 : adaptInv p (initState alg operator p initial_value initial_guess) := by
      refine ⟨hte, ?_⟩
      intro q hq
      injection hq with he
      rw [← he]
      exact hsf
    obtain ⟨hinv', hmono⟩ :=
      adaptiveLoop_inv Hnorm het hct hfs hfm hsm fuel _ s' hinv0 hl
    exact ⟨hmono, hinv'.1⟩
  · intro s h t2r hacc
    obtain ⟨m, hm⟩ := accept_stepSizeNew_fin alg operator p s h t2r hfs hacc
    rw [adaptStep_accept_eq alg operator p s h t2r hacc]
    dsimp only
    rw [hm]
    refine ⟨min m (min (p.time_end - min (s.time + h) p.time_end) p.step_size_max),
      ?_, ?_, ?_⟩
    · simp [npMin]
    · exact le_trans (min_le_right _ _) (min_le_left _ _)
    · exact le_trans (min_le_right _ _) (min_le_right _ _)

/-- Witness for C6: the accepted first iteration of a concrete run (with
`closeness_tol = 2` both factors exceed 1), instantiating the clamping part of
the theorem. -/
theorem c6_witness :
    adaptAccept ratAlg 3 { cexParams with closeness_tol := 2, factor_safe := 9/10 }
      (initState ratAlg 3 { cexParams with closeness_tol := 2, factor_safe := 9/10 } 2 4)
      1 8 = true ∧
    (∃ h', (adaptStep ratAlg 3 { cexParams with closeness_tol := 2, factor_safe := 9/10 }
        (initState ratAlg 3 { cexParams with closeness_tol := 2, factor_safe := 9/10 } 2 4)
        1 8).step_size = .fin h' ∧
      h' ≤ { cexParams with closeness_tol := 2, factor_safe := (9:ℚ)/10 }.time_end -
        (adaptStep ratAlg 3 { cexParams with closeness_tol := 2, factor_safe := 9/10 }
          (initState ratAlg 3 { cexParams with closeness_tol := 2, factor_safe := 9/10 } 2 4)
          1 8).time ∧
      h' ≤ { cexParams with closeness_tol := 2, factor_safe := (9:ℚ)/10 }.step_size_max) := by
  have hacc : adaptAccept ratAlg 3 { cexParams with closeness_tol := 2, factor_safe := 9/10 }
      (initState ratAlg 3 { cexParams with closeness_tol := 2, factor_safe := 9/10 } 2 4)
      1 8 = true := by
    norm_num [adaptAccept, adaptFactorLocal, adaptFactorCloseness, adaptLocalError,
      adaptClosenessDiff, adaptCloseness, adaptT1, adaptT2, adaptLast, initState,
      cexParams, ratAlg, sysMat, npdiv, npdivN, npAbs, npMulQ, NpQ.gtQ]
  refine ⟨hacc, ?_⟩
  exact (c6_adaptive_monotonicity ratAlg 3
      { cexParams with closeness_tol := 2, factor_safe := 9/10 } 2 4
      ratAlg_norm_nonneg
      (by norm_num [cexParams]) (by norm_num [cexParams]) (by norm_num [cexParams])
      (by norm_num [cexParams]) (by norm_num [cexParams]) (by norm_num [cexParams])
      (by norm_num [cexParams])).2.2
    (initState ratAlg 3 { cexParams with closeness_tol := 2, factor_safe := 9/10 } 2 4)
    1 8 hacc
